import Mathlib

/-!
Shallow embedding of the dexscanner repository (Python) in Lean 4, together
with theorems settling the frozen claims C1..C10.

Conventions of the embedding:
* Python `datetime` timestamps are integers (seconds); `timedelta` values are
  integers (seconds).
* Python `float` prices, volumes and change fractions are rationals.
* Fallible Python code (code that can raise) is embedded as `Except PyError`.
* Python object identity, where a claim depends on it, is embedded with an
  explicit heap: a list of objects, references are indices into the list.
* Python truthiness of `Optional` values is made explicit (`None` is falsy,
  and so are `0` and a zero `timedelta`).
-/

deriving instance DecidableEq for Except

section RatKernelReducible

/- The Batteries rational arithmetic definitions are marked irreducible, which
blocks the elaborator-side reduction used by `decide`; concrete evaluation of
the embedded chart arithmetic needs them semireducible. -/
attribute [local semireducible] Rat.mul Rat.inv Rat.add Rat.sub

namespace DexScanner

/-- Exceptions raised by the embedded code paths: IndexError and TypeError are
Python built-ins, the others are the repository exception classes from
network.py / extended_pool.py / pool_with_chart.py. -/
inductive PyError where
  | indexError
  | typeError
  | timeGapBetweenCharts
  | outdatedData
deriving Repr, DecidableEq

/-- Network enum from network.py (a single member, TON). -/
inductive Network where
  | ton
deriving Repr, DecidableEq

/-- Candlestick dataclass from network.py: timestamp, price, optional volume. -/
structure Candlestick where
  timestamp : Int
  price : ℚ
  volume : Option ℚ := none
deriving Repr, DecidableEq

/-- TimePeriodsData dataclass (network.py and extended_pool.py): four optional
percentage figures. -/
structure TimePeriodsData where
  m5 : Option ℚ := none
  h1 : Option ℚ := none
  h6 : Option ℚ := none
  h24 : Option ℚ := none
deriving Repr, DecidableEq

/-- Token dataclass from network.py. Identity (used by its `eq` and `hash`)
is the pair (network, address); ticker and name are mutable display fields. -/
structure Token where
  network : Network
  address : String
  ticker : Option String := none
  name : Option String := none
deriving Repr, DecidableEq

/-- Identity of a Token, the part compared by Token.eq in network.py. -/
def Token.identity (t : Token) : Network × String := (t.network, t.address)

/-- Token.update from network.py: overwrite the mutable display fields of the
receiver in place, keeping identity. -/
def Token.update (self other : Token) : Token :=
  { self with ticker := other.ticker, name := other.name }

/-- DEX dataclass from network.py. Identity is the id string; name mutable. -/
structure DEX where
  id : String
  name : Option String := none
deriving Repr, DecidableEq

/-- DEX.update from network.py: overwrite the mutable name field in place. -/
def DEX.update (self other : DEX) : DEX :=
  { self with name := other.name }

/-- Python truthiness of an optional machine integer (walrus-bound index in
Chart.update): None is falsy and so is the integer 0. -/
def truthyOptNat : Option Nat → Bool
  | none => false
  | some n => n != 0

namespace NetworkChart

/-- Argument accepted by the strict Chart.update of network.py (line 112) and
pool_with_chart.py (line 45): either a single sample or a batch of samples.
The Python code dispatches with isinstance. -/
inductive TicksArg where
  | single (c : Candlestick)
  | batch (cs : List Candlestick)
deriving Repr, DecidableEq

/-- Batch branch of the strict Chart.update (network.py lines 113-126,
identically pool_with_chart.py lines 46-59).  The chart state is the
candlesticks list.  `if not self.candlesticks: self.candlesticks = candlesticks`
replaces an empty chart by the batch; otherwise the first index whose existing
timestamp equals the first batch timestamp is searched with next(...); the
walrus-bound index is then used as a Python truthiness test (None and 0 are
both falsy), and the chart is overwritten from that index
(`self.candlesticks[idx_to_insert:] = candlesticks`) or
TimeGapBetweenCharts is raised.  Reading `candlesticks[0]` of an empty batch
raises IndexError. -/
def updateBatch (chart : List Candlestick) (cs : List Candlestick) :
    Except PyError (List Candlestick) :=
  if chart.isEmpty then .ok cs
  else
    match cs with
    | [] => .error .indexError
    | oldest :: _ =>
      let idxToInsert := chart.findIdx? (fun c => c.timestamp == oldest.timestamp)
      if truthyOptNat idxToInsert then
        .ok (chart.take (idxToInsert.getD 0) ++ cs)
      else
        .error .timeGapBetweenCharts

/-- Single-sample branch of the strict Chart.update (network.py lines 127-137,
identically pool_with_chart.py lines 60-70).  When the chart is empty the
entire `if self.candlesticks:` guard is false and the method silently returns
without touching the chart.  Otherwise a strictly newer sample is appended, a
sample with the same timestamp overwrites the price of the last sample in
place, and an older sample raises OutdatedData. -/
def updateSingle (chart : List Candlestick) (c : Candlestick) :
    Except PyError (List Candlestick) :=
  match chart.getLast? with
  | none => .ok chart
  | some lastCandlestick =>
    if c.timestamp > lastCandlestick.timestamp then
      .ok (chart ++ [c])
    else if c.timestamp == lastCandlestick.timestamp then
      .ok (chart.dropLast ++ [{ lastCandlestick with price := c.price }])
    else
      .error .outdatedData

/-- Chart.update of network.py (lines 112-137) / pool_with_chart.py
(lines 45-70): isinstance dispatch between the two branches. -/
def update (chart : List Candlestick) : TicksArg → Except PyError (List Candlestick)
  | .batch cs => updateBatch chart cs
  | .single c => updateSingle chart c

end NetworkChart

namespace SharedDefault

/-!
Embedding of Python dataclass default semantics for `chart: Chart = Chart()`
(network.py line 160, and likewise extended_pool.py line 431).  A dataclass
field default is evaluated once, when the class body is executed; every
instance constructed without an explicit argument for that field receives the
very same object.  Object identity is made explicit with a chart heap: a list
of chart objects, references are indices. -/

/-- A network.py Chart object: its state is the candlesticks list. -/
structure ChartObj where
  candlesticks : List Candlestick
deriving Repr, DecidableEq

/-- Heap of Chart objects; a chart reference is an index into this list. -/
structure ChartHeap where
  charts : List ChartObj
deriving Repr, DecidableEq

/-- Heap after the Pool class body runs: the single default Chart() of
`chart: Chart = Chart()` has been allocated. -/
def classDefinitionHeap : ChartHeap := ⟨[⟨[]⟩]⟩

/-- Reference to the Chart object created once for the dataclass default. -/
def poolChartDefault : Nat := 0

/-- Constructor arguments of network.Pool other than chart. -/
structure PoolArgs where
  network : Network
  address : String
  base_token : Token
  quote_token : Token
  price_usd : ℚ
  price_native : ℚ
  liquidity : ℚ
  volume : ℚ
  fdv : ℚ
  price_change : TimePeriodsData
  dex : DEX
  creation_date : Int
deriving Repr, DecidableEq

/-- A constructed network.Pool: its fields plus the reference identifying the
Chart object held in the chart field. -/
structure PoolObj where
  args : PoolArgs
  chart : Nat
deriving Repr, DecidableEq

/-- The network.Pool dataclass constructor.  When no chart argument is passed,
the field is bound to the class-level default object — no new Chart is
allocated, so the heap is returned unchanged and the reference is the shared
`poolChartDefault`. -/
def mkPool (h : ChartHeap) (args : PoolArgs) (chartArg : Option Nat) :
    ChartHeap × PoolObj :=
  match chartArg with
  | some r => (h, ⟨args, r⟩)
  | none => (h, ⟨args, poolChartDefault⟩)

/-- Samples of the chart object a reference points at. -/
def chartSamples (h : ChartHeap) (r : Nat) : List Candlestick :=
  ((h.charts.getD r ⟨[]⟩).candlesticks)

/-- Appending samples through a chart reference: run the strict Chart.update
on the referenced object and store the result back into the heap (an in-place
mutation of the shared object). -/
def chartUpdate (h : ChartHeap) (r : Nat) (arg : NetworkChart.TicksArg) :
    Except PyError ChartHeap :=
  (NetworkChart.update (chartSamples h r) arg).map
    (fun cs => ⟨h.charts.set r ⟨cs⟩⟩)

/-- Concrete constructor arguments used in the C1 failing input. -/
def p1Args : PoolArgs :=
  { network := .ton, address := "pool-1"
    base_token := { network := .ton, address := "base-1" }
    quote_token := { network := .ton, address := "quote-1" }
    price_usd := 1, price_native := 1, liquidity := 10, volume := 5, fdv := 100
    price_change := {}, dex := { id := "dex-1" }, creation_date := 0 }

/-- Concrete constructor arguments of a second, distinct Pool. -/
def p2Args : PoolArgs :=
  { p1Args with address := "pool-2", base_token := { network := .ton, address := "base-2" } }

end SharedDefault

/-- Chart sample type of extended_pool.py: Tick (closed sample, with volume)
and IncompleteTick (still forming, no volume) are the two variants of the
sealed BaseTick dataclass hierarchy. -/
inductive BaseTick where
  | tick (timestamp : Int) (price : ℚ) (volume : ℚ)
  | incompleteTick (timestamp : Int) (price : ℚ)
deriving Repr, DecidableEq

instance : Inhabited BaseTick := ⟨.incompleteTick 0 0⟩

/-- Timestamp field shared by both BaseTick variants. -/
def BaseTick.timestamp : BaseTick → Int
  | .tick ts _ _ => ts
  | .incompleteTick ts _ => ts

/-- Price field shared by both BaseTick variants. -/
def BaseTick.price : BaseTick → ℚ
  | .tick _ p _ => p
  | .incompleteTick _ p => p

/-- CircularList from extended_pool.py (lines 61-145).  The Python class
subclasses list: the physical storage is a list of `capacity` slots
initialised to None, and the logical content is addressed through
`beginning` and `size`.  The physical storage is the `data` field here;
empty slots hold `none`. -/
structure CircularList (α : Type) where
  data : List (Option α)
  beginning : Nat
  size : Nat
  capacity : Nat
deriving Repr, DecidableEq

namespace CircularList

/-- CircularList.__init__: `capacity` None slots, beginning 0, size 0. -/
def init (α : Type) (capacity : Nat) : CircularList α :=
  ⟨List.replicate capacity none, 0, 0, capacity⟩

/-- CircularList._get_index: physical index of a logical shift.  A
non-negative shift is taken from `beginning`, a negative one from
`beginning + size`; the sum is reduced modulo `capacity` (Python % and
`Int.emod` agree for a positive modulus). -/
def _get_index (c : CircularList α) (shift : Int) : Nat :=
  let base : Int := if 0 ≤ shift then (c.beginning : Int) else ((c.beginning : Nat) + c.size : Nat)
  ((base + shift) % (c.capacity : Int)).toNat

/-- CircularList._is_integral: the logical content does not wrap past the
physical end of the storage. -/
def _is_integral (c : CircularList α) : Prop :=
  c.beginning + c.size ≤ c.capacity

instance (c : CircularList α) : Decidable c._is_integral :=
  inferInstanceAs (Decidable (_ ≤ _))

/-- Python `l[a:b]` on a list for non-negative bounds (slicing clamps to the
list length, as take/drop do). -/
def sliceList (l : List β) (a b : Nat) : List β :=
  (l.take b).drop a

/-- CircularList.__getitem__ for an int index (lines 79-82): bounds-checked
against (-size, size), then a physical read through _get_index.  The slot
read is returned as stored (an unfilled slot is `none`). -/
def getI (c : CircularList α) (index : Int) : Except PyError (Option α) :=
  if -(c.size : Int) < index ∧ index < (c.size : Int) then
    .ok (c.data.getD (c._get_index index) none)
  else
    .error .indexError

/-- CircularList.__getitem__ for a slice (lines 83-99).  `index.start` and
`index.stop` are the raw slice attributes (None when omitted), defaulted to 0
and size; the Python `start < 0` part of the range check cannot fire for
natural bounds.  The physical start/stop come from _get_index; an integral
list, a physically increasing range, or a slice whose raw attributes are equal
is read directly, otherwise the read wraps around the physical end. -/
def getSlice (c : CircularList α) (ostart ostop : Option Nat) :
    Except PyError (List (Option α)) :=
  let start := ostart.getD 0
  let stop := ostop.getD c.size
  if start > stop ∨ stop > c.size then .error .indexError
  else
    let start1 := c._get_index start
    let stop1 := c._get_index stop
    if c._is_integral ∨ stop1 > start1 ∨ ostart = ostop then
      .ok (sliceList c.data start1 stop1)
    else
      .ok (sliceList c.data start1 c.capacity ++ sliceList c.data 0 stop1)

/-- CircularList.append (lines 113-121): the physical index of the next
logical slot is computed first; then either the size grows (not yet full) or
the beginning advances by one (full, evicting the oldest); finally
`self[index] = item` writes the slot physically (list.__setitem__ is not
overridden). -/
def append (c : CircularList α) (item : α) : CircularList α :=
  let index := c._get_index (c.size : Int)
  let c1 :=
    if c.size < c.capacity then { c with size := c.size + 1 }
    else { c with beginning := c._get_index 1 }
  { c1 with data := c1.data.set index (some item) }

/-- CircularList.extend (lines 123-125): append each item in order. -/
def extend (c : CircularList α) (items : List α) : CircularList α :=
  items.foldl append c

/-- CircularList.set (lines 127-138): overwrite the logical content from
`index` onward with the given items.  The index must be within 0..size, and
the items must reach at least to the current size (`index + len(iterable) >=
self.size`), otherwise IndexError is raised; on success the size is cut to
`index` and the items are appended. -/
def set (c : CircularList α) (index : Nat) (items : List α) :
    Except PyError (CircularList α) :=
  if index ≤ c.size then
    if c.size ≤ index + items.length then
      .ok (extend { c with size := index } items)
    else
      .error .indexError
  else
    .error .indexError

/-- Logical content of a CircularList, in chronological order, as read by
CircularList.__iter__ (lines 101-103): slot `_get_index i` for each logical
index i below size. -/
def toList (c : CircularList α) : List (Option α) :=
  (List.range c.size).map (fun i => c.data.getD (c._get_index (Int.ofNat i)) none)

/-- Logical element at index i, with unfilled slots read as the default value
(such slots are unreachable for charts, whose logical range is always
filled). -/
def item [Inhabited α] (c : CircularList α) (i : Nat) : α :=
  (c.data.getD (c._get_index (Int.ofNat i)) none).getD default

end CircularList

namespace ExtChart

/-- CHART_MAX_TICKS from extended_pool.py. -/
def CHART_MAX_TICKS : Nat := 2000

/-- Argument of the extended Chart.update: one sample or a batch. -/
inductive TicksArg where
  | single (t : BaseTick)
  | batch (ts : List BaseTick)
deriving Repr, DecidableEq

/-- Chart.update from extended_pool.py (lines 220-234).  A single sample is
wrapped into a one-element batch; an empty batch is a no-op (`if ticks:`).
Otherwise the chart is overwritten, via CircularList.set, from the first
logical index i (scanning forward) for which
`ticks[0].timestamp >= self.ticks[i].timestamp`, defaulting to the current
length when no index qualifies. -/
def update (ticks : CircularList BaseTick) (arg : TicksArg) :
    Except PyError (CircularList BaseTick) :=
  match (match arg with | .single t => [t] | .batch ts => ts) with
  | [] => .ok ticks
  | t0 :: rest =>
    let idx :=
      match (List.range ticks.size).find?
          (fun i => decide (t0.timestamp ≥ (ticks.item i).timestamp)) with
      | some i => i
      | none => ticks.size
    ticks.set idx (t0 :: rest)

end ExtChart

end DexScanner

namespace DexScanner
namespace CircularList

lemma get_index_ofNat (c : CircularList α) (i : Nat) :
    c._get_index ((i : Nat) : Int) = (c.beginning + i) % c.capacity := by
  simp only [_get_index]
  rw [if_pos (Int.natCast_nonneg i)]
  norm_cast

lemma length_toList (c : CircularList α) : c.toList.length = c.size := by
  simp [toList]

lemma length_sliceList (l : List β) (a b : Nat) (hb : b ≤ l.length) :
    (sliceList l a b).length = b - a := by
  simp only [sliceList, List.length_drop, List.length_take]
  rw [Nat.min_eq_left hb]

lemma sliceList_eq_map (l : List β) (d : β) (a b : Nat) (hb : b ≤ l.length) (hab : a ≤ b) :
    sliceList l a b = (List.range (b - a)).map (fun k => l.getD (a + k) d) := by
  apply List.ext_getElem
  · rw [length_sliceList l a b hb]; simp
  · intro k h1 h2
    rw [length_sliceList l a b hb] at h1
    have hk : a + k < l.length := by omega
    simp only [sliceList, List.getElem_drop, List.getElem_take, List.getElem_map,
      List.getElem_range]
    rw [List.getD_eq_getElem _ _ hk]

lemma sliceList_same (l : List β) (x : Nat) : sliceList l x x = [] := by
  apply List.eq_nil_of_length_eq_zero
  simp only [sliceList, List.length_drop, List.length_take]
  omega

lemma toList_getD (c : CircularList α) (i : Nat) (h : i < c.size) :
    c.toList.getD i none = c.data.getD ((c.beginning + i) % c.capacity) none := by
  unfold toList
  have hlen : i < (List.map (fun i => c.data.getD (c._get_index (Int.ofNat i)) none) (List.range c.size)).length := by
    simpa using h
  rw [List.getD_eq_getElem _ _ hlen]
  simp only [List.getElem_map, List.getElem_range]
  rw [show Int.ofNat i = ((i : Nat) : Int) from rfl, get_index_ofNat]

/-- C8, amended.  Slicing a CircularList over a half-open logical range
0 ≤ start ≤ stop ≤ size returns the same element sequence as slicing the
equivalent non-wrapped linear list (CircularList.toList), including when the
range straddles the physical wraparound point, PROVIDED the claim is weakened
by excluding the boundary case that refutes it (see the counterexample):
an integral buffer (beginning + size ≤ capacity) with beginning + stop =
capacity and start < stop, where the code returns the empty list.  The
hypothesis hok excludes exactly that case. -/
theorem c8_amended_slice_refines_linear (c : CircularList α) (start stop : Nat)
    (hdata : c.data.length = c.capacity) (hsz : c.size ≤ c.capacity)
    (hbeg : c.beginning < c.capacity)
    (hss : start ≤ stop) (hstop : stop ≤ c.size)
    (hok : c.capacity < c.beginning + c.size ∨ c.beginning + stop ≠ c.capacity ∨ start = stop) :
    c.getSlice (some start) (some stop) = .ok (sliceList c.toList start stop) := by
  have hcap : 0 < c.capacity := lt_of_le_of_lt (Nat.zero_le _) hbeg
  have hlin : sliceList c.toList start stop
      = (List.range (stop - start)).map
          (fun k => c.data.getD ((c.beginning + (start + k)) % c.capacity) none) := by
    rw [sliceList_eq_map c.toList none start stop (by rw [length_toList]; exact hstop) hss]
    apply List.map_congr_left
    intro k hk
    have hk2 : start + k < c.size := by
      simp only [List.mem_range] at hk; omega
    exact toList_getD c (start + k) hk2
  simp only [getSlice, Option.getD_some]
  rw [if_neg (by omega : ¬(start > stop ∨ stop > c.size))]
  simp only [get_index_ofNat]
  by_cases hint : c._is_integral
  · have hint' : c.beginning + c.size ≤ c.capacity := hint
    by_cases hsc : c.beginning + stop = c.capacity
    · have hse : start = stop := by
        rcases hok with h | h | h
        · omega
        · omega
        · exact h
      subst hse
      rw [if_pos (Or.inl hint)]
      rw [hlin]
      simp [sliceList_same]
    · have h1 : c.beginning + stop < c.capacity := by omega
      rw [Nat.mod_eq_of_lt h1, Nat.mod_eq_of_lt (by omega : c.beginning + start < c.capacity)]
      rw [if_pos (Or.inl hint)]
      rw [hlin]
      congr 1
      rw [sliceList_eq_map c.data none _ _ (by omega) (by omega)]
      rw [show c.beginning + stop - (c.beginning + start) = stop - start by omega]
      apply List.map_congr_left
      intro k hk
      simp only [List.mem_range] at hk
      rw [show (c.beginning + (start + k)) % c.capacity = c.beginning + start + k by
        rw [Nat.mod_eq_of_lt (by omega)]; omega]
  · have hint' : c.capacity < c.beginning + c.size := by
      simp only [_is_integral] at hint; omega
    by_cases hse : start = stop
    · subst hse
      rw [if_pos (Or.inr (Or.inr rfl))]
      rw [hlin]
      simp [sliceList_same]
    · have hlt : start < stop := by omega
      by_cases hA : c.beginning + stop < c.capacity
      · have hs1 : (c.beginning + start) % c.capacity = c.beginning + start :=
          Nat.mod_eq_of_lt (by omega)
        have hs2 : (c.beginning + stop) % c.capacity = c.beginning + stop :=
          Nat.mod_eq_of_lt hA
        rw [hs1, hs2, if_pos (Or.inr (Or.inl (by omega)))]
        rw [hlin]
        congr 1
        rw [sliceList_eq_map c.data none _ _ (by omega) (by omega)]
        rw [show c.beginning + stop - (c.beginning + start) = stop - start by omega]
        apply List.map_congr_left
        intro k hk
        simp only [List.mem_range] at hk
        rw [show (c.beginning + (start + k)) % c.capacity = c.beginning + start + k by
          rw [Nat.mod_eq_of_lt (by omega)]; omega]
      · by_cases hB : c.capacity ≤ c.beginning + start
        · have hs1 : (c.beginning + start) % c.capacity = c.beginning + start - c.capacity := by
            rw [Nat.mod_eq_sub_mod hB, Nat.mod_eq_of_lt (by omega)]
          have hs2 : (c.beginning + stop) % c.capacity = c.beginning + stop - c.capacity := by
            rw [Nat.mod_eq_sub_mod (by omega), Nat.mod_eq_of_lt (by omega)]
          rw [hs1, hs2, if_pos (Or.inr (Or.inl (by omega)))]
          rw [hlin]
          congr 1
          rw [sliceList_eq_map c.data none _ _ (by omega) (by omega)]
          rw [show c.beginning + stop - c.capacity - (c.beginning + start - c.capacity)
            = stop - start by omega]
          apply List.map_congr_left
          intro k hk
          simp only [List.mem_range] at hk
          rw [show (c.beginning + (start + k)) % c.capacity
              = c.beginning + start - c.capacity + k by
            rw [Nat.mod_eq_sub_mod (by omega : c.capacity ≤ c.beginning + (start + k)),
              Nat.mod_eq_of_lt (by omega)]
            omega]
        · have hBlt : c.beginning + start < c.capacity := by omega
          have hAge : c.capacity ≤ c.beginning + stop := by omega
          rw [Nat.mod_eq_of_lt hBlt]
          rw [show (c.beginning + stop) % c.capacity = c.beginning + stop - c.capacity by
            rw [Nat.mod_eq_sub_mod hAge, Nat.mod_eq_of_lt (by omega)]]
          rw [if_neg (by
            push_neg
            refine ⟨fun hc => absurd hc hint, by omega, by simp [hse]⟩)]
          rw [hlin]
          congr 1
          rw [show stop - start
              = (c.capacity - (c.beginning + start)) + (c.beginning + stop - c.capacity) by omega]
          rw [List.range_add, List.map_append, List.map_map]
          congr 1
          · rw [sliceList_eq_map c.data none _ _ (by omega) (by omega)]
            apply List.map_congr_left
            intro k hk
            simp only [List.mem_range] at hk
            rw [show (c.beginning + (start + k)) % c.capacity = c.beginning + start + k by
              rw [Nat.mod_eq_of_lt (by omega)]; omega]
          · rw [sliceList_eq_map c.data none _ _ (by omega) (by omega)]
            rw [show c.beginning + stop - c.capacity - 0 = c.beginning + stop - c.capacity by
              omega]
            apply List.map_congr_left
            intro k hk
            simp only [List.mem_range] at hk
            simp only [Function.comp_apply]
            rw [show (c.beginning + (start + (c.capacity - (c.beginning + start) + k)))
                % c.capacity = 0 + k by
              rw [show c.beginning + (start + (c.capacity - (c.beginning + start) + k))
                  = c.capacity + k by omega]
              rw [Nat.add_mod_left, Nat.mod_eq_of_lt (by omega)]
              omega]

end CircularList
end DexScanner

namespace DexScanner

/-- TICK_MERGE_MAXIMUM_CHANGE from extended_pool.py line 16 (0.05). -/
def TICK_MERGE_MAXIMUM_CHANGE : ℚ := 5 / 100

/-- Trend dataclass from extended_pool.py (lines 148-165): a fractional change
over a span of logical chart indices.  The source field `end` is a Lean
keyword and is embedded as `ending`. -/
structure Trend where
  change : ℚ
  beginning : Nat
  ending : Nat
deriving Repr, DecidableEq

instance : Inhabited Trend := ⟨⟨0, 0, 0⟩⟩

/-- Trend.__add__: summed change, spanning the receiver beginning to the
argument end. -/
def Trend.add (a b : Trend) : Trend := ⟨a.change + b.change, a.beginning, b.ending⟩

instance : Add Trend := ⟨Trend.add⟩

/-- Trend.have_same_trend: the product of the changes is non-negative (a
zero-change trend is compatible with either sign). -/
def Trend.have_same_trend (a b : Trend) : Prop := a.change * b.change ≥ 0

instance (a b : Trend) : Decidable (Trend.have_same_trend a b) :=
  inferInstanceAs (Decidable (_ ≥ _))

/-- Trend.can_be_merged: outer trends share a sign, the inner does not share
the first trend sign, and the inner magnitude is at most both flanks and at
most the noise threshold. -/
def Trend.can_be_merged (a b c : Trend) : Prop :=
  Trend.have_same_trend a c ∧ ¬Trend.have_same_trend a b ∧
    |b.change| ≤ min |a.change| |c.change| ∧ |b.change| ≤ TICK_MERGE_MAXIMUM_CHANGE

instance (a b c : Trend) : Decidable (Trend.can_be_merged a b c) := by
  unfold Trend.can_be_merged
  infer_instance

/-- One iteration of the while-loop body of Chart._construct_segments
(extended_pool.py lines 250-275), at cursor i with at least three trends
ahead: merge t1+t2, or t2+t3, or all three, retreating the cursor by two
(deque.remove removes the first occurrence equal to its argument, deque.insert
inserts before the given position), or advance the cursor by one. -/
def mergeStep (trends : List Trend) (i : Nat) (h : i + 2 < trends.length) :
    List Trend × Nat :=
  let t1 := trends[i]
  let t2 := trends[i + 1]
  let t3 := trends[i + 2]
  if Trend.have_same_trend t1 t2 then
    (((trends.erase t1).erase t2).insertIdx i (t1 + t2), i - 2)
  else if Trend.have_same_trend t2 t3 then
    (((trends.erase t2).erase t3).insertIdx (i + 1) (t2 + t3), i - 2)
  else if Trend.can_be_merged t1 t2 t3 then
    ((((trends.erase t1).erase t2).erase t3).insertIdx i (t1 + t2 + t3), i - 2)
  else
    (trends, i + 1)

/-- Fuel-indexed unfolding of the while-loop of _construct_segments: the loop
runs while at least three trends remain ahead of the cursor.  With fuel at
least 3·length − i the fuel never runs out (mergeLoopF_congr below), so the
wrapper mergeLoopRun is the loop itself. -/
def mergeLoopF : Nat → List Trend → Nat → List Trend
  | 0, trends, _ => trends
  | fuel + 1, trends, i =>
    if h : i + 2 < trends.length then
      mergeLoopF fuel (mergeStep trends i h).1 (mergeStep trends i h).2
    else trends

/-- The while-loop of _construct_segments with always-sufficient fuel. -/
def mergeLoopRun (trends : List Trend) (i : Nat) : List Trend :=
  mergeLoopF (3 * trends.length) trends i

/-- Erasing the head of the middle of a decomposed list keeps the tail intact
and the prefix length unchanged (the first equal occurrence may sit in the
prefix). -/
lemma erase_shape {α : Type} [DecidableEq α] (C B : List α) (x : α) :
    ∃ C2 : List α, (C ++ x :: B).erase x = C2 ++ B ∧ C2.length = C.length := by
  by_cases hC : x ∈ C
  · refine ⟨C.erase x ++ [x], ?_, ?_⟩
    · rw [List.erase_append_left _ hC, List.append_assoc]
      rfl
    · have : 0 < C.length := List.length_pos.mpr (List.ne_nil_of_mem hC)
      simp [List.length_erase_of_mem hC]
      omega
  · refine ⟨C, ?_, rfl⟩
    rw [List.erase_append_right _ hC, List.erase_cons_head]

/-- A list with three known consecutive elements decomposes around them. -/
lemma decomp3 (l : List Trend) (i : Nat) (h : i + 2 < l.length) :
    l = l.take i ++ l[i] :: l[i + 1] :: l[i + 2] :: l.drop (i + 3) := by
  conv_lhs => rw [← List.take_append_drop i l]
  congr 1
  rw [List.drop_eq_getElem_cons (by omega : i < l.length)]
  congr 1
  rw [List.drop_eq_getElem_cons (by omega : i + 1 < l.length)]
  congr 1
  rw [List.drop_eq_getElem_cons (by omega : i + 2 < l.length)]

/-- The loop body either merges (strictly shrinking the trend list, the new
length is one below the insertIdx bound) or advances the cursor. -/
lemma mergeStep_cases (trends : List Trend) (i : Nat) (h : i + 2 < trends.length) :
    ((mergeStep trends i h).1.length + 1 ≤ trends.length ∧ (mergeStep trends i h).2 = i - 2)
    ∨ ((mergeStep trends i h).1 = trends ∧ (mergeStep trends i h).2 = i + 1) := by
  have hd := decomp3 trends i h
  have hlen := h
  set A := List.take i trends with hAdef
  set B := List.drop (i + 3) trends with hBdef
  have hAl : A.length = i := by
    rw [hAdef]
    simp [List.length_take]
    omega
  have hBl : B.length = trends.length - (i + 3) := by
    rw [hBdef]
    simp [List.length_drop]
  simp only [mergeStep]
  generalize hga : trends[i] = a at hd ⊢
  generalize hgb : trends[i + 1] = b at hd ⊢
  generalize hgc : trends[i + 2] = c at hd ⊢
  split_ifs with hc1 hc2 hc3
  · left
    refine ⟨?_, rfl⟩
    obtain ⟨C2, hC2, hl2⟩ := erase_shape A (b :: c :: B) a
    obtain ⟨C3, hC3, hl3⟩ := erase_shape C2 (c :: B) b
    rw [hd, hC2, hC3]
    rw [List.length_insertIdx _ _ (by simp [hl3, hl2, hAl])]
    simp [hl3, hl2, hAl, hd]
    omega
  · left
    refine ⟨?_, rfl⟩
    have hd2 : trends = (A ++ [a]) ++ b :: c :: B := by
      rw [hd]
      simp
    obtain ⟨C2, hC2, hl2⟩ := erase_shape (A ++ [a]) (c :: B) b
    obtain ⟨C3, hC3, hl3⟩ := erase_shape C2 B c
    rw [hd2, hC2, hC3]
    rw [List.length_insertIdx _ _ (by simp [hl3, hl2, hAl])]
    simp [hl3, hl2, hAl, hd2]
    omega
  · left
    refine ⟨?_, rfl⟩
    obtain ⟨C2, hC2, hl2⟩ := erase_shape A (b :: c :: B) a
    obtain ⟨C3, hC3, hl3⟩ := erase_shape C2 (c :: B) b
    obtain ⟨C4, hC4, hl4⟩ := erase_shape C3 B c
    rw [hd, hC2, hC3, hC4]
    rw [List.length_insertIdx _ _ (by simp [hl4, hl3, hl2, hAl])]
    simp [hl4, hl3, hl2, hAl, hd]
    omega
  · right
    exact ⟨rfl, rfl⟩

/-- Adding one unit of fuel does not change the loop result once the fuel
covers the loop variant 3·length − cursor. -/
lemma mergeLoopF_fuel_succ : ∀ (fuel : Nat) (trends : List Trend) (i : Nat),
    3 * trends.length - i ≤ fuel →
    mergeLoopF fuel trends i = mergeLoopF (fuel + 1) trends i := by
  intro fuel
  induction fuel with
  | zero =>
    intro trends i hb
    show trends = mergeLoopF 1 trends i
    unfold mergeLoopF
    rw [dif_neg (by omega)]
  | succ f ih =>
    intro trends i hb
    show mergeLoopF (f + 1) trends i = mergeLoopF (f + 1 + 1) trends i
    rw [mergeLoopF, mergeLoopF]
    by_cases h : i + 2 < trends.length
    · rw [dif_pos h, dif_pos h]
      rcases mergeStep_cases trends i h with ⟨hlen, hi⟩ | ⟨hsame, hi⟩
      · exact ih _ _ (by omega)
      · rw [hsame, hi]
        exact ih _ _ (by omega)
    · rw [dif_neg h, dif_neg h]

/-- The loop result is independent of the fuel once the fuel covers the loop
variant. -/
lemma mergeLoopF_congr (f g : Nat) (trends : List Trend) (i : Nat)
    (hf : 3 * trends.length - i ≤ f) (hg : 3 * trends.length - i ≤ g) :
    mergeLoopF f trends i = mergeLoopF g trends i := by
  -- reduce to adding fuel one unit at a time above the variant
  have step : ∀ (base k : Nat), 3 * trends.length - i ≤ base →
      mergeLoopF base trends i = mergeLoopF (base + k) trends i := by
    intro base k hbase
    induction k with
    | zero => rfl
    | succ n ihn =>
      rw [ihn, ← Nat.add_assoc]
      exact mergeLoopF_fuel_succ (base + n) trends i (by omega)
  rcases Nat.le_total f g with hle | hle
  · obtain ⟨k, rfl⟩ := Nat.exists_eq_add_of_le hle
    exact step f k hf
  · obtain ⟨k, rfl⟩ := Nat.exists_eq_add_of_le hle
    exact (step g k hg).symm
/-- Chart._construct_segments (extended_pool.py lines 236-277) as a function
of the logical tick sequence (the chart state reads its ticks only through
logical iteration here): per-tick fractional changes against the predecessor
(0 for the first tick, and 0 whenever the predecessor price is falsy), one
seed unit trend per tick spanning the preceding index to the tick, then the
merge while-loop. -/
def _construct_segments (ticks : List BaseTick) : List Trend :=
  let prices := ticks.map BaseTick.price
  let previous_prices := 0 :: prices.dropLast
  let changes := (prices.zip previous_prices).map
    (fun cp => if cp.2 ≠ 0 then (cp.1 - cp.2) / cp.2 else 0)
  let trends := changes.enum.map
    (fun ic => Trend.mk ic.2 (if ic.1 ≠ 0 then ic.1 - 1 else 0) ic.1)
  mergeLoopRun trends 0

/-- Tick series for the concrete C6 example: prices 100, 102, 100.98,
104.0094, one minute apart, giving unit changes +2 percent, -1 percent,
+3 percent. -/
def c6Ticks : List BaseTick :=
  [.tick 0 100 0, .tick 60 102 0, .tick 120 (5049 / 50) 0, .tick 180 (520047 / 5000) 0]

/-- Seed trends reached by the example after the first same-sign merge. -/
def c6Trends : List Trend := [⟨1 / 50, 0, 1⟩, ⟨-1 / 100, 1, 2⟩, ⟨3 / 100, 2, 3⟩]

/-- Python truthiness of an optional timedelta (`if self.min_duration ...` in
Pattern.match): None is falsy and so is a zero timedelta. -/
def tdTruthy : Option Int → Bool
  | none => false
  | some d => d != 0

/-- Pattern dataclass from extended_pool.py (lines 168-188): a minimum signed
change and optional duration bounds (seconds). -/
structure Pattern where
  min_change : ℚ
  min_duration : Option Int := none
  max_duration : Option Int := none
deriving Repr, DecidableEq

/-- Pattern.match (extended_pool.py lines 174-188; `match` is a Lean keyword).
The chained comparison `trend.change >= self.min_change >= 0 or
0 >= self.min_change >= trend.change` selects the direction; the duration of
the trend span is then checked against the optional bounds.  Out-of-range
trend indices cannot occur: trends always span indices below the tick count. -/
def Pattern.matchTrend (p : Pattern) (t : Trend) (ticks : List BaseTick) : Bool :=
  if (t.change ≥ p.min_change ∧ p.min_change ≥ 0)
      ∨ ((0:ℚ) ≥ p.min_change ∧ p.min_change ≥ t.change) then
    let duration := (ticks.getD t.ending default).timestamp
      - (ticks.getD t.beginning default).timestamp
    if tdTruthy p.min_duration ∧ duration < p.min_duration.getD 0 then false
    else if tdTruthy p.max_duration ∧ duration > p.max_duration.getD 0 then false
    else true
  else false

/-- _fraction from extended_pool.py line 191. -/
def _fraction (percent : ℚ) : ℚ := percent / 100

/-- _UPTREND signal patterns (extended_pool.py lines 195-197). -/
def _UPTREND : List Pattern := [⟨_fraction 5, some (20 * 60), none⟩]

/-- _DUMP signal patterns (lines 199-201). -/
def _DUMP : List Pattern := [⟨_fraction (-5), none, some (10 * 60)⟩]

/-- _DOWNTREND_REVERSAL signal patterns (lines 203-206). -/
def _DOWNTREND_REVERSAL : List Pattern :=
  [⟨_fraction (-10), some (20 * 60), none⟩, ⟨_fraction 3, none, none⟩]

/-- PATTERNS catalog, in the order checked (line 208). -/
def PATTERNS : List (List Pattern) := [_DUMP, _UPTREND, _DOWNTREND_REVERSAL]

/-- Signal-relevant state of the extended Chart: the logical tick sequence
and the recorded signal-end timestamp (None until a signal is recorded).  The
trends cache the Python object also carries is recomputed on every call and
never read back, so it is not part of this state. -/
structure ChartSignalState where
  ticks : List BaseTick
  signal_end_timestamp : Option Int := none
deriving Repr, DecidableEq

/-- The `for pattern in PATTERNS` loop of Chart.has_signal (extended_pool.py
lines 288-303).  For each signal the trailing trends (negative deque indices
-len(pattern)..-1) are matched pattern by pattern.  On a full match with
only_new set, `first_timestamp < self.signal_end_timestamp` compares a
datetime against the initial None and raises TypeError; with a recorded
timestamp, an earlier first timestamp returns False immediately (without
checking the remaining signals), otherwise the signal-end timestamp is
advanced and True is returned. -/
def signalScan (ticks : List BaseTick) (trends : List Trend) (only_new : Bool)
    (sigEnd : Option Int) : List (List Pattern) → Except PyError (Bool × Option Int)
  | [] => .ok (false, sigEnd)
  | pattern :: rest =>
    let last_trends := (List.range pattern.length).map
      (fun j => trends.getD (trends.length - pattern.length + j) default)
    if (pattern.zip last_trends).all (fun pt => pt.1.matchTrend pt.2 ticks) then
      if only_new then
        let first_timestamp :=
          (ticks.getD (last_trends.headD default).beginning default).timestamp
        match sigEnd with
        | none => .error .typeError
        | some se =>
          if first_timestamp < se then
            .ok (false, sigEnd)
          else
            .ok (true,
              some ((ticks.getD (last_trends.getLastD default).ending default).timestamp))
      else
        .ok (true, sigEnd)
    else
      signalScan ticks trends only_new sigEnd rest

/-- Chart.has_signal (extended_pool.py lines 279-305): no signal for 3 or
fewer samples; segments are reconstructed; no signal when fewer trends exist
than the longest pattern; otherwise the catalog is scanned in order. -/
def has_signal (c : ChartSignalState) (only_new : Bool) :
    Except PyError (Bool × ChartSignalState) :=
  if c.ticks.length ≤ 3 then .ok (false, c)
  else
    let trends := _construct_segments c.ticks
    if trends.length < (PATTERNS.map List.length).foldl max 0 then .ok (false, c)
    else
      (signalScan c.ticks trends only_new c.signal_end_timestamp PATTERNS).map
        (fun bs => (bs.1, { c with signal_end_timestamp := bs.2 }))

/-- Tick series for the C5 failing input: prices 100, 101, 102, 96 one minute
apart; the trailing trend is a one-minute drop of -1/17 (about -5.9 percent),
matching the DUMP pattern. -/
def c5Ticks : List BaseTick :=
  [.tick 0 100 0, .tick 60 101 0, .tick 120 102 0, .tick 180 96 0]

namespace PoolsWithAPI

/-- make_batches from pools_with_api.py (lines 11-12):
`[sequence[i:n + i] for i in range(0, len(sequence), n)]`, written over the
step count k with i = k·n; `range(0, len, n)` has ceil(len / n) steps. -/
def make_batches (sequence : List α) (n : Nat) : List (List α) :=
  (List.range ((sequence.length + n - 1) / n)).map
    (fun k => (sequence.drop (k * n)).take n)

/-- CHECK_FOR_NEW_TOKENS_EVERY_UPDATE from pools_with_api.py line 18. -/
def CHECK_FOR_NEW_TOKENS_EVERY_UPDATE : Nat := 20

/-- APPLY_FILTER_EVERY_UPDATE from pools_with_api.py line 19. -/
def APPLY_FILTER_EVERY_UPDATE : Nat := 20

/-- PoolsWithAPI._satisfy (lines 34-35). -/
def _satisfy (update_counter every_update : Nat) : Bool :=
  update_counter % every_update == 0

/-- The addresses collected by one invocation of update_using_api
(lines 75-84): the list starts empty, and only on a cycle satisfying the
discovery interval are the discovery-provider candidate addresses (a
parameter here, the API client code is not under src/) appended.  The
addresses of already-tracked pools are never added. -/
def update_using_api_addresses (update_counter : Nat) (discovered : List String) :
    List String :=
  if _satisfy update_counter CHECK_FOR_NEW_TOKENS_EVERY_UPDATE then discovered else []

/-- The enrichment request batches issued by one invocation of
update_using_api (lines 86-89): the collected addresses split into batches of
the enrichment-provider maximum (DEXScreenerAPI.MAX_ADDRESSES, whose code is
not under src/; the maximum is a parameter). -/
def update_using_api_batches (update_counter : Nat) (discovered : List String)
    (max_addresses : Nat) : List (List String) :=
  make_batches (update_using_api_addresses update_counter discovered) max_addresses

end PoolsWithAPI

/-- A registry entity as stored in the dynamically typed token set of
pools.py: a Token or — after the apply_filter slip on line 105 — a DEX.
Python equality dispatches on isinstance, so values of different variants
never compare equal. -/
inductive Entity where
  | tok (t : Token)
  | dex (d : DEX)
deriving Repr, DecidableEq

/-- Python equality between registry entities: Token.eq compares identity
(network, address) and requires the other side to be a Token; DEX.eq compares
id and requires a DEX. -/
def Entity.pyEq : Entity → Entity → Bool
  | .tok a, .tok b => a.network == b.network && a.address == b.address
  | .dex a, .dex b => a.id == b.id
  | _, _ => false

/-- Python set insertion for entities: adding an element equal to a present
member keeps the set unchanged (first insertion wins). -/
def setAdd (s : List Entity) (x : Entity) : List Entity :=
  if s.any (fun y => Entity.pyEq y x) then s else s ++ [x]

/-- Python set construction from an iterable of entities. -/
def mkSet (xs : List Entity) : List Entity := xs.foldl setAdd []

/-- Python set union A | B for entity sets: members of A, then the members of
B not already present. -/
def entityUnion (a b : List Entity) : List Entity := b.foldl setAdd a

namespace PoolsValue

/-- Value-level state of the pools.py Pools registry, as seen by
apply_filter: the tracked pool set (pool values, reusing the constructor
argument record of network.Pool), the token set (dynamically typed, see
Entity), the DEX set and the optional admission predicate.  The heap-level
model of the update family, which needs object identity, is PoolsHeap
below; apply_filter itself touches no object identity. -/
structure PoolsState where
  pools : List SharedDefault.PoolArgs
  tokens : List Entity
  dexes : List DEX
  pool_filter : Option (SharedDefault.PoolArgs → Bool)

/-- Pools.apply_filter from pools.py (lines 101-105).  With a configured
predicate: the pool set is re-filtered (line 103); line 104 computes the
union of the surviving base and quote tokens into self.tokens; line 105 then
assigns `DEXes(map(lambda p: p.dex, self.pools))` to **self.tokens** again,
overwriting the value of line 104 with the DEX set of the survivors (bound
here as the dead value _tokens_line_104), and `self.dexes` is never
reassigned. -/
def apply_filter (s : PoolsState) : PoolsState :=
  match s.pool_filter with
  | none => s
  | some f =>
    let pools' := s.pools.filter f
    let _tokens_line_104 := entityUnion
      (mkSet (pools'.map (fun p => Entity.tok p.base_token)))
      (mkSet (pools'.map (fun p => Entity.tok p.quote_token)))
    let tokens' := mkSet (pools'.map (fun p => Entity.dex p.dex))
    { s with pools := pools', tokens := tokens' }

/-- Concrete pool passing the C4 admission predicate. -/
def p1 : SharedDefault.PoolArgs :=
  { network := .ton, address := "pool-1"
    base_token := { network := .ton, address := "tok-a" }
    quote_token := { network := .ton, address := "tok-b" }
    price_usd := 1, price_native := 1, liquidity := 100, volume := 5, fdv := 100
    price_change := {}, dex := { id := "dex-1" }, creation_date := 0 }

/-- Concrete pool failing the C4 admission predicate (zero liquidity). -/
def p2 : SharedDefault.PoolArgs :=
  { p1 with
    address := "pool-2"
    base_token := { network := .ton, address := "tok-c" }
    liquidity := 0
    dex := { id := "dex-2" } }

/-- Concrete registry for the C4 failing input: two pools, their tokens and
DEXes tracked, admission predicate requiring positive liquidity. -/
def c4State : PoolsState :=
  { pools := [p1, p2]
    tokens := [.tok { network := .ton, address := "tok-a" },
               .tok { network := .ton, address := "tok-b" },
               .tok { network := .ton, address := "tok-c" }]
    dexes := [{ id := "dex-1" }, { id := "dex-2" }]
    pool_filter := some (fun p => decide (p.liquidity > 0)) }

end PoolsValue

instance : Inhabited Token := ⟨⟨.ton, "", none, none⟩⟩

instance : Inhabited DEX := ⟨⟨"", none⟩⟩

namespace PoolsHeap

/-!
Heap-level embedding of the pools.py Pools registry for the update family
(update, _update, _ensure_consistent_token_and_dex_references and the helpers
they use).  The registry merges incoming data INTO existing objects and
rewires incoming pools to reference them, so Python object identity matters:
Token, DEX and Pool objects live in heaps (lists), references are indices,
and the three registry sets hold references.  apply_filter, which performs no
identity reconciliation, is modelled at value level in PoolsValue above.
-/

/-- A network.Pool object stored in the registry: token and DEX fields are
references into the token and DEX heaps.  The chart field is not represented:
no operation of the update family reads or writes it (Pool.update copies
every other field and leaves the chart alone). -/
structure PoolObj where
  network : Network
  address : String
  base_token : Nat
  quote_token : Nat
  price_usd : ℚ
  price_native : ℚ
  liquidity : ℚ
  volume : ℚ
  fdv : ℚ
  price_change : TimePeriodsData
  dex : Nat
  creation_date : Int
deriving Repr, DecidableEq

instance : Inhabited PoolObj := ⟨⟨.ton, "", 0, 0, 0, 0, 0, 0, 0, {}, 0, 0⟩⟩

/-- An incoming pool as built by the API conversion layer: a fresh object
graph whose token and DEX fields are fresh value objects, not yet in any
heap.  This is exactly the constructor-argument record of network.Pool. -/
abbrev IncomingPool := SharedDefault.PoolArgs

/-- The scalar view of a pool passed to the configured ranking key
(repeated_pool_filter_key is called both on incoming pools and on stored pool
objects; in main.py the key reads the volume field). -/
structure PoolView where
  network : Network
  address : String
  price_usd : ℚ
  price_native : ℚ
  liquidity : ℚ
  volume : ℚ
  fdv : ℚ
  price_change : TimePeriodsData
  creation_date : Int
deriving Repr, DecidableEq

/-- View of an incoming pool. -/
def viewIncoming (p : IncomingPool) : PoolView :=
  ⟨p.network, p.address, p.price_usd, p.price_native, p.liquidity, p.volume, p.fdv,
   p.price_change, p.creation_date⟩

/-- Registry state of pools.py Pools: the three object heaps, the three
reference sets, and the two optional configuration hooks. -/
structure State where
  tokenHeap : List Token
  dexHeap : List DEX
  poolHeap : List PoolObj
  pools : List Nat
  tokens : List Nat
  dexes : List Nat
  pool_filter : Option (IncomingPool → Bool)
  repeated_pool_filter_key : Option (PoolView → ℚ)

/-- View of a stored pool object. -/
def viewStored (s : State) (r : Nat) : PoolView :=
  let q := s.poolHeap.getD r default
  ⟨q.network, q.address, q.price_usd, q.price_native, q.liquidity, q.volume, q.fdv,
   q.price_change, q.creation_date⟩

/-- Token.__eq__ as a Bool: identity comparison (network, address). -/
def tokenIdEqB (a b : Token) : Bool :=
  a.network == b.network && a.address == b.address

/-- SetWithGet.get on the token set (pools.py lines 10-14): the first member
equal — by Token identity — to the probe, or None. -/
def tokens_get (s : State) (t : Token) : Option Nat :=
  s.tokens.find? (fun r => tokenIdEqB (s.tokenHeap.getD r default) t)

/-- SetWithGet.get on the DEX set: first member with the probe id. -/
def dexes_get (s : State) (d : DEX) : Option Nat :=
  s.dexes.find? (fun r => (s.dexHeap.getD r default).id == d.id)

/-- SetWithGet.get on the pool set: first member with the probe pool
identity (network, address). -/
def pools_get (s : State) (p : PoolObj) : Option Nat :=
  s.pools.find? (fun r =>
    (s.poolHeap.getD r default).network == p.network
      && (s.poolHeap.getD r default).address == p.address)

/-- One token branch of _ensure_consistent_token_and_dex_references
(pools.py lines 55-59 for the base token, lines 61-65 identically for the
quote token): when a registry token with the same identity exists, its
mutable fields are overwritten in place (Token.update) and the existing
reference is returned; otherwise the incoming object is added to the set (it
is allocated into the heap, and `add` appends since no equal member exists)
and its new reference returned. -/
def reconcileToken (s : State) (t : Token) : State × Nat :=
  match tokens_get s t with
  | some r =>
    ({ s with tokenHeap :=
        s.tokenHeap.set r (Token.update (s.tokenHeap.getD r default) t) }, r)
  | none =>
    ({ s with tokenHeap := s.tokenHeap ++ [t],
              tokens := s.tokens ++ [s.tokenHeap.length] }, s.tokenHeap.length)

/-- The DEX branch of _ensure_consistent_token_and_dex_references
(pools.py lines 67-71). -/
def reconcileDex (s : State) (d : DEX) : State × Nat :=
  match dexes_get s d with
  | some r =>
    ({ s with dexHeap :=
        s.dexHeap.set r (DEX.update (s.dexHeap.getD r default) d) }, r)
  | none =>
    ({ s with dexHeap := s.dexHeap ++ [d],
              dexes := s.dexes ++ [s.dexHeap.length] }, s.dexHeap.length)

/-- Pools._ensure_consistent_token_and_dex_references (pools.py lines 54-71):
reconcile the base token, then the quote token, then the DEX, sequentially
against the evolving state, and return the incoming pool rewired to the
canonical references. -/
def _ensure_consistent_token_and_dex_references (s : State) (p : IncomingPool) :
    State × PoolObj :=
  let sb := reconcileToken s p.base_token
  let sq := reconcileToken sb.1 p.quote_token
  let sd := reconcileDex sq.1 p.dex
  (sd.1,
   ⟨p.network, p.address, sb.2, sq.2, p.price_usd, p.price_native, p.liquidity,
    p.volume, p.fdv, p.price_change, sd.2, p.creation_date⟩)

/-- Pool.update from network.py (lines 171-183) applied to a stored pool
object: cascade Token.update into the base and quote token objects the
stored pool references, copy the scalar fields and the creation date, and
cascade DEX.update into the referenced DEX object.  The reference fields of
the stored pool (and its chart) are not reassigned. -/
def pool_update (s : State) (selfRef : Nat) (other : PoolObj) : State :=
  let sp := s.poolHeap.getD selfRef default
  let s1 := { s with
    tokenHeap := s.tokenHeap.set sp.base_token
      (Token.update (s.tokenHeap.getD sp.base_token default)
        (s.tokenHeap.getD other.base_token default)) }
  let s2 := { s1 with
    tokenHeap := s1.tokenHeap.set sp.quote_token
      (Token.update (s1.tokenHeap.getD sp.quote_token default)
        (s1.tokenHeap.getD other.quote_token default)) }
  let s3 := { s2 with
    poolHeap := s2.poolHeap.set selfRef
      { sp with
        price_usd := other.price_usd
        price_native := other.price_native
        liquidity := other.liquidity
        volume := other.volume
        fdv := other.fdv
        price_change := other.price_change
        creation_date := other.creation_date } }
  { s3 with
    dexHeap := s3.dexHeap.set sp.dex
      (DEX.update (s3.dexHeap.getD sp.dex default)
        (s3.dexHeap.getD other.dex default)) }

/-- Pools._update (pools.py lines 73-77): merge into the existing pool with
the same identity, or add the incoming pool as new. -/
def _update (s : State) (p : PoolObj) : State :=
  match pools_get s p with
  | some r => pool_update s r p
  | none => { s with poolHeap := s.poolHeap ++ [p], pools := s.pools ++ [s.poolHeap.length] }

/-- Set insertion keyed by a projection: used for the DEXes(...) set
construction of pools.py line 94 (DEX set equality compares ids). -/
def natSetAddBy (f : Nat → String) (acc : List Nat) (r : Nat) : List Nat :=
  if acc.any (fun r2 => f r2 == f r) then acc else acc ++ [r]

/-- `DEXes([p.dex for p in self.pools])` (pools.py line 94): the DEX set
rebuilt from the DEX references of the tracked pools, deduplicated by DEX
id, first occurrence kept. -/
def rebuildDexes (s : State) : List Nat :=
  (s.pools.map (fun r => (s.poolHeap.getD r default).dex)).foldl
    (natSetAddBy (fun r => (s.dexHeap.getD r default).id)) []

/-- The tail of Pools.update (pools.py lines 98-99). -/
def finishUpdate (s : State) (p : IncomingPool) : State :=
  let sp := _ensure_consistent_token_and_dex_references s p
  _update sp.1 sp.2

/-- Pools.update (pools.py lines 79-99).  A configured admission predicate
discards failing pools silently.  With a configured ranking key, a tracked
pool sharing the (base token, quote token) identity pair is compared: the
loser is dropped — removing the stored pool rebuilds the DEX set from the
remaining pools — or the incoming pool is discarded.  Then identity
reconciliation and the pool merge-or-add. -/
def update (s : State) (p : IncomingPool) : State :=
  if (match s.pool_filter with | some f => !(f p) | none => false) then s
  else
    match s.repeated_pool_filter_key with
    | some key =>
      let pool_with_same_token := s.pools.find? (fun r =>
        tokenIdEqB (s.tokenHeap.getD (s.poolHeap.getD r default).base_token default)
            p.base_token
          && tokenIdEqB (s.tokenHeap.getD (s.poolHeap.getD r default).quote_token default)
              p.quote_token)
      match pool_with_same_token with
      | some qr =>
        if key (viewIncoming p) > key (viewStored s qr) then
          let s1 := { s with pools := s.pools.erase qr }
          let s2 := { s1 with dexes := rebuildDexes s1 }
          finishUpdate s2 p
        else s
      | none => finishUpdate s p
    | none => finishUpdate s p

/-- The empty registry built by Pools.__init__ (pools.py lines 25-36). -/
def init (pf : Option (IncomingPool → Bool)) (rk : Option (PoolView → ℚ)) : State :=
  ⟨[], [], [], [], [], [], pf, rk⟩

/-- Registry states reachable from an empty registry by Pools.update calls. -/
inductive Reach : State → Prop where
  | init : ∀ pf rk, Reach (init pf rk)
  | step : ∀ s p, Reach s → Reach (update s p)

/-- Well-formedness invariant of the registry: reference sets point into
their heaps; the token set holds at most one reference per token identity,
the DEX set at most one per id, the pool set at most one per pool identity;
and every stored pool references set members. -/
structure WF (s : State) : Prop where
  tokValid : ∀ r ∈ s.tokens, r < s.tokenHeap.length
  tokUniq : ∀ r1 ∈ s.tokens, ∀ r2 ∈ s.tokens,
    (s.tokenHeap.getD r1 default).identity = (s.tokenHeap.getD r2 default).identity → r1 = r2
  dexValid : ∀ r ∈ s.dexes, r < s.dexHeap.length
  dexUniq : ∀ r1 ∈ s.dexes, ∀ r2 ∈ s.dexes,
    (s.dexHeap.getD r1 default).id = (s.dexHeap.getD r2 default).id → r1 = r2
  poolValid : ∀ r ∈ s.pools, r < s.poolHeap.length
  poolUniq : ∀ r1 ∈ s.pools, ∀ r2 ∈ s.pools,
    (s.poolHeap.getD r1 default).network = (s.poolHeap.getD r2 default).network →
    (s.poolHeap.getD r1 default).address = (s.poolHeap.getD r2 default).address → r1 = r2
  poolRefs : ∀ r ∈ s.pools,
    (s.poolHeap.getD r default).base_token ∈ s.tokens
    ∧ (s.poolHeap.getD r default).quote_token ∈ s.tokens
    ∧ (s.poolHeap.getD r default).dex ∈ s.dexes

lemma getD_set_self {α : Type} [Inhabited α] (l : List α) (i : Nat) (x : α)
    (h : i < l.length) : (l.set i x).getD i default = x := by
  simp [List.getD_eq_getElem?_getD, List.getElem?_set_self h]

lemma getD_set_ne {α : Type} [Inhabited α] (l : List α) (i j : Nat) (x : α)
    (h : i ≠ j) : (l.set i x).getD j default = l.getD j default := by
  simp [List.getD_eq_getElem?_getD, List.getElem?_set_ne h]

lemma getD_append_left {α : Type} [Inhabited α] (l1 l2 : List α) (i : Nat)
    (h : i < l1.length) : (l1 ++ l2).getD i default = l1.getD i default := by
  simp [List.getD_eq_getElem?_getD, List.getElem?_append_left h]

lemma getD_concat_self {α : Type} [Inhabited α] (l : List α) (x : α) :
    (l ++ [x]).getD l.length default = x := by
  simp [List.getD_eq_getElem?_getD, List.getElem?_concat_length]

lemma tokenIdEqB_iff (a b : Token) :
    tokenIdEqB a b = true ↔ a.identity = b.identity := by
  simp [tokenIdEqB, Token.identity, Prod.ext_iff]

/-- Everything the registry proofs need to know about one token
reconciliation step. -/
structure ReconTokSpec (s : State) (t : Token) (s' : State) (r : Nat) : Prop where
  dexHeap_eq : s'.dexHeap = s.dexHeap
  poolHeap_eq : s'.poolHeap = s.poolHeap
  pools_eq : s'.pools = s.pools
  dexes_eq : s'.dexes = s.dexes
  len_mono : s.tokenHeap.length ≤ s'.tokenHeap.length
  preserve_other : ∀ i, i ≠ r → s'.tokenHeap.getD i default = s.tokenHeap.getD i default
  preserve_id : ∀ i, i < s.tokenHeap.length →
    (s'.tokenHeap.getD i default).identity = (s.tokenHeap.getD i default).identity
  tokens_cases : s'.tokens = s.tokens
    ∨ (s'.tokens = s.tokens ++ [r] ∧ r = s.tokenHeap.length)
  mem : r ∈ s'.tokens
  id_eq : (s'.tokenHeap.getD r default).identity = t.identity
  ticker_eq : (s'.tokenHeap.getD r default).ticker = t.ticker
  valid : ∀ x ∈ s'.tokens, x < s'.tokenHeap.length
  uniq : ∀ r1 ∈ s'.tokens, ∀ r2 ∈ s'.tokens,
    (s'.tokenHeap.getD r1 default).identity = (s'.tokenHeap.getD r2 default).identity → r1 = r2

lemma reconcileToken_spec (s : State) (t : Token)
    (hv : ∀ x ∈ s.tokens, x < s.tokenHeap.length)
    (hu : ∀ r1 ∈ s.tokens, ∀ r2 ∈ s.tokens,
      (s.tokenHeap.getD r1 default).identity = (s.tokenHeap.getD r2 default).identity → r1 = r2) :
    ReconTokSpec s t (reconcileToken s t).1 (reconcileToken s t).2 := by
  unfold reconcileToken
  cases hfind : tokens_get s t with
  | some r =>
    dsimp only
    unfold tokens_get at hfind
    have hmem : r ∈ s.tokens := List.mem_of_find?_eq_some hfind
    have hpred : tokenIdEqB (s.tokenHeap.getD r default) t = true := by
      have := List.find?_some hfind
      simpa using this
    have hid : (s.tokenHeap.getD r default).identity = t.identity := (tokenIdEqB_iff _ _).mp hpred
    have hrlen : r < s.tokenHeap.length := hv r hmem
    have hset_self : ((s.tokenHeap.set r
        (Token.update (s.tokenHeap.getD r default) t)).getD r default)
        = Token.update (s.tokenHeap.getD r default) t := getD_set_self _ _ _ hrlen
    refine ⟨rfl, rfl, rfl, rfl, by simp, ?_, ?_, Or.inl rfl, hmem, ?_, ?_, ?_, ?_⟩
    · intro i hne
      exact getD_set_ne _ _ _ _ (fun he => hne he.symm)
    · intro i hlt
      by_cases hir : i = r
      · subst hir
        rw [hset_self]
        rfl
      · rw [getD_set_ne _ _ _ _ (fun he => hir he.symm)]
    · rw [hset_self]
      exact hid
    · rw [hset_self]
      rfl
    · intro x hx
      simpa using hv x hx
    · intro r1 h1 r2 h2 hideq
      apply hu r1 h1 r2 h2
      have e1 : ((s.tokenHeap.set r (Token.update (s.tokenHeap.getD r default) t)).getD r1 default).identity
          = (s.tokenHeap.getD r1 default).identity := by
        by_cases h : r1 = r
        · subst h
          rw [hset_self]
          rfl
        · rw [getD_set_ne _ _ _ _ (fun he => h he.symm)]
      have e2 : ((s.tokenHeap.set r (Token.update (s.tokenHeap.getD r default) t)).getD r2 default).identity
          = (s.tokenHeap.getD r2 default).identity := by
        by_cases h : r2 = r
        · subst h
          rw [hset_self]
          rfl
        · rw [getD_set_ne _ _ _ _ (fun he => h he.symm)]
      rw [e1, e2] at hideq
      exact hideq
  | none =>
    dsimp only
    unfold tokens_get at hfind
    have hnone : ∀ x ∈ s.tokens, ¬ tokenIdEqB (s.tokenHeap.getD x default) t = true := by
      have := List.find?_eq_none.mp hfind
      simpa using this
    have hlen := s.tokenHeap.length
    have hgetnew : ((s.tokenHeap ++ [t]).getD s.tokenHeap.length default) = t :=
      getD_concat_self _ _
    refine ⟨rfl, rfl, rfl, rfl, by simp, ?_, ?_, Or.inr ⟨rfl, rfl⟩, by simp, ?_, ?_, ?_, ?_⟩
    · intro i hne
      by_cases hlt : i < s.tokenHeap.length
      · exact getD_append_left _ _ _ hlt
      · rw [List.getD_eq_default, List.getD_eq_default]
        · omega
        · simp
          omega
    · intro i hlt
      rw [getD_append_left _ _ _ hlt]
    · rw [hgetnew]
    · rw [hgetnew]
    · intro x hx
      simp at hx
      rcases hx with hx | hx
      · have := hv x hx
        simp
        omega
      · subst hx
        simp
    · intro r1 h1 r2 h2 hideq
      simp at h1 h2
      rcases h1 with h1 | h1 <;> rcases h2 with h2 | h2
      · have e1 := getD_append_left s.tokenHeap [t] r1 (hv r1 h1)
        have e2 := getD_append_left s.tokenHeap [t] r2 (hv r2 h2)
        rw [e1, e2] at hideq
        exact hu r1 h1 r2 h2 hideq
      · subst h2
        have e1 := getD_append_left s.tokenHeap [t] r1 (hv r1 h1)
        rw [e1, hgetnew] at hideq
        exact absurd ((tokenIdEqB_iff _ _).mpr hideq) (hnone r1 h1)
      · subst h1
        have e2 := getD_append_left s.tokenHeap [t] r2 (hv r2 h2)
        rw [e2, hgetnew] at hideq
        exact absurd ((tokenIdEqB_iff _ _).mpr hideq.symm) (hnone r2 h2)
      · omega

/-- Everything the registry proofs need about one DEX reconciliation step. -/
structure ReconDexSpec (s : State) (d : DEX) (s' : State) (r : Nat) : Prop where
  tokenHeap_eq : s'.tokenHeap = s.tokenHeap
  poolHeap_eq : s'.poolHeap = s.poolHeap
  pools_eq : s'.pools = s.pools
  tokens_eq : s'.tokens = s.tokens
  len_mono : s.dexHeap.length ≤ s'.dexHeap.length
  preserve_other : ∀ i, i ≠ r → s'.dexHeap.getD i default = s.dexHeap.getD i default
  preserve_id : ∀ i, i < s.dexHeap.length →
    (s'.dexHeap.getD i default).id = (s.dexHeap.getD i default).id
  dexes_cases : s'.dexes = s.dexes
    ∨ (s'.dexes = s.dexes ++ [r] ∧ r = s.dexHeap.length)
  mem : r ∈ s'.dexes
  id_eq : (s'.dexHeap.getD r default).id = d.id
  valid : ∀ x ∈ s'.dexes, x < s'.dexHeap.length
  uniq : ∀ r1 ∈ s'.dexes, ∀ r2 ∈ s'.dexes,
    (s'.dexHeap.getD r1 default).id = (s'.dexHeap.getD r2 default).id → r1 = r2

lemma reconcileDex_spec (s : State) (d : DEX)
    (hv : ∀ x ∈ s.dexes, x < s.dexHeap.length)
    (hu : ∀ r1 ∈ s.dexes, ∀ r2 ∈ s.dexes,
      (s.dexHeap.getD r1 default).id = (s.dexHeap.getD r2 default).id → r1 = r2) :
    ReconDexSpec s d (reconcileDex s d).1 (reconcileDex s d).2 := by
  unfold reconcileDex
  cases hfind : dexes_get s d with
  | some r =>
    dsimp only
    unfold dexes_get at hfind
    have hmem : r ∈ s.dexes := List.mem_of_find?_eq_some hfind
    have hpred : ((s.dexHeap.getD r default).id == d.id) = true := by
      have := List.find?_some hfind
      simpa using this
    have hid : (s.dexHeap.getD r default).id = d.id := by
      simpa using hpred
    have hrlen : r < s.dexHeap.length := hv r hmem
    have hset_self : ((s.dexHeap.set r
        (DEX.update (s.dexHeap.getD r default) d)).getD r default)
        = DEX.update (s.dexHeap.getD r default) d := getD_set_self _ _ _ hrlen
    refine ⟨rfl, rfl, rfl, rfl, by simp, ?_, ?_, Or.inl rfl, hmem, ?_, ?_, ?_⟩
    · intro i hne
      exact getD_set_ne _ _ _ _ (fun he => hne he.symm)
    · intro i hlt
      by_cases hir : i = r
      · subst hir
        rw [hset_self]
        rfl
      · rw [getD_set_ne _ _ _ _ (fun he => hir he.symm)]
    · rw [hset_self]
      exact hid
    · intro x hx
      simpa using hv x hx
    · intro r1 h1 r2 h2 hideq
      apply hu r1 h1 r2 h2
      have e1 : ((s.dexHeap.set r (DEX.update (s.dexHeap.getD r default) d)).getD r1 default).id
          = (s.dexHeap.getD r1 default).id := by
        by_cases h : r1 = r
        · subst h
          rw [hset_self]
          rfl
        · rw [getD_set_ne _ _ _ _ (fun he => h he.symm)]
      have e2 : ((s.dexHeap.set r (DEX.update (s.dexHeap.getD r default) d)).getD r2 default).id
          = (s.dexHeap.getD r2 default).id := by
        by_cases h : r2 = r
        · subst h
          rw [hset_self]
          rfl
        · rw [getD_set_ne _ _ _ _ (fun he => h he.symm)]
      rw [e1, e2] at hideq
      exact hideq
  | none =>
    dsimp only
    unfold dexes_get at hfind
    have hnone : ∀ x ∈ s.dexes, ¬ ((s.dexHeap.getD x default).id == d.id) = true := by
      have := List.find?_eq_none.mp hfind
      simpa using this
    have hgetnew : ((s.dexHeap ++ [d]).getD s.dexHeap.length default) = d :=
      getD_concat_self _ _
    refine ⟨rfl, rfl, rfl, rfl, by simp, ?_, ?_, Or.inr ⟨rfl, rfl⟩, by simp, ?_, ?_, ?_⟩
    · intro i hne
      by_cases hlt : i < s.dexHeap.length
      · exact getD_append_left _ _ _ hlt
      · rw [List.getD_eq_default, List.getD_eq_default]
        · omega
        · simp
          omega
    · intro i hlt
      rw [getD_append_left _ _ _ hlt]
    · rw [hgetnew]
    · intro x hx
      simp at hx
      rcases hx with hx | hx
      · have := hv x hx
        simp
        omega
      · subst hx
        simp
    · intro r1 h1 r2 h2 hideq
      simp at h1 h2
      rcases h1 with h1 | h1 <;> rcases h2 with h2 | h2
      · have e1 := getD_append_left s.dexHeap [d] r1 (hv r1 h1)
        have e2 := getD_append_left s.dexHeap [d] r2 (hv r2 h2)
        rw [e1, e2] at hideq
        exact hu r1 h1 r2 h2 hideq
      · subst h2
        have e1 := getD_append_left s.dexHeap [d] r1 (hv r1 h1)
        rw [e1, hgetnew] at hideq
        exact absurd (by simpa using hideq) (hnone r1 h1)
      · subst h1
        have e2 := getD_append_left s.dexHeap [d] r2 (hv r2 h2)
        rw [e2, hgetnew] at hideq
        exact absurd (by simpa using hideq.symm) (hnone r2 h2)
      · omega
lemma set_oob {α : Type} (l : List α) (n : Nat) (x : α) (h : ¬ n < l.length) :
    l.set n x = l := by
  apply List.ext_getElem
  · simp
  · intro i h1 h2
    have : i ≠ n := by
      simp at h1
      omega
    simp [List.getElem_set_ne (fun he => this he.symm)]

lemma set_tokenUpdate_id (h : List Token) (r : Nat) (x : Token) (i : Nat) :
    ((h.set r (Token.update (h.getD r default) x)).getD i default).identity
      = (h.getD i default).identity := by
  by_cases hir : i = r
  · subst hir
    by_cases hr : i < h.length
    · rw [getD_set_self _ _ _ hr]
      rfl
    · rw [set_oob _ _ _ hr]
  · rw [getD_set_ne _ _ _ _ (fun he => hir he.symm)]

lemma set_dexUpdate_id (h : List DEX) (r : Nat) (x : DEX) (i : Nat) :
    ((h.set r (DEX.update (h.getD r default) x)).getD i default).id
      = (h.getD i default).id := by
  by_cases hir : i = r
  · subst hir
    by_cases hr : i < h.length
    · rw [getD_set_self _ _ _ hr]
      rfl
    · rw [set_oob _ _ _ hr]
  · rw [getD_set_ne _ _ _ _ (fun he => hir he.symm)]

/-- Identity and reference fields of every stored pool are untouched by the
scalar overwrite performed in pool_update. -/
lemma set_poolScalars_frame (h : List PoolObj) (r : Nat) (q : PoolObj) (i : Nat) :
    let sp := h.getD r default
    let h2 := h.set r
      { sp with
        price_usd := q.price_usd
        price_native := q.price_native
        liquidity := q.liquidity
        volume := q.volume
        fdv := q.fdv
        price_change := q.price_change
        creation_date := q.creation_date }
    (h2.getD i default).network = (h.getD i default).network
    ∧ (h2.getD i default).address = (h.getD i default).address
    ∧ (h2.getD i default).base_token = (h.getD i default).base_token
    ∧ (h2.getD i default).quote_token = (h.getD i default).quote_token
    ∧ (h2.getD i default).dex = (h.getD i default).dex := by
  intro sp h2
  by_cases hir : i = r
  · subst hir
    by_cases hr : i < h.length
    · rw [show h2.getD i default = _ from getD_set_self _ _ _ hr]
      exact ⟨rfl, rfl, rfl, rfl, rfl⟩
    · rw [show h2 = h from set_oob _ _ _ hr]
      exact ⟨rfl, rfl, rfl, rfl, rfl⟩
  · rw [show h2.getD i default = h.getD i default from
      getD_set_ne _ _ _ _ (fun he => hir he.symm)]
    exact ⟨rfl, rfl, rfl, rfl, rfl⟩

/-- pool_update touches only object fields: both heaps keep their lengths,
token identities, DEX ids, pool identities and pool reference fields
pointwise; the three reference sets are untouched. -/
lemma pool_update_frame (s : State) (pr : Nat) (q : PoolObj) :
    (pool_update s pr q).pools = s.pools
    ∧ (pool_update s pr q).tokens = s.tokens
    ∧ (pool_update s pr q).dexes = s.dexes
    ∧ (pool_update s pr q).tokenHeap.length = s.tokenHeap.length
    ∧ (pool_update s pr q).dexHeap.length = s.dexHeap.length
    ∧ (pool_update s pr q).poolHeap.length = s.poolHeap.length
    ∧ (∀ i, ((pool_update s pr q).tokenHeap.getD i default).identity
        = (s.tokenHeap.getD i default).identity)
    ∧ (∀ i, ((pool_update s pr q).dexHeap.getD i default).id
        = (s.dexHeap.getD i default).id)
    ∧ (∀ i, ((pool_update s pr q).poolHeap.getD i default).network
          = (s.poolHeap.getD i default).network
        ∧ ((pool_update s pr q).poolHeap.getD i default).address
          = (s.poolHeap.getD i default).address
        ∧ ((pool_update s pr q).poolHeap.getD i default).base_token
          = (s.poolHeap.getD i default).base_token
        ∧ ((pool_update s pr q).poolHeap.getD i default).quote_token
          = (s.poolHeap.getD i default).quote_token
        ∧ ((pool_update s pr q).poolHeap.getD i default).dex
          = (s.poolHeap.getD i default).dex) := by
  unfold pool_update
  refine ⟨rfl, rfl, rfl, by simp, by simp, by simp, ?_, ?_, ?_⟩
  · intro i
    show (((s.tokenHeap.set _ _).set _ _).getD i default).identity = _
    rw [set_tokenUpdate_id, set_tokenUpdate_id]
  · intro i
    exact set_dexUpdate_id _ _ _ i
  · intro i
    exact set_poolScalars_frame s.poolHeap pr q i
lemma _update_wf (s : State) (q : PoolObj) (h : WF s)
    (hb : q.base_token ∈ s.tokens) (hq : q.quote_token ∈ s.tokens)
    (hd : q.dex ∈ s.dexes) : WF (_update s q) := by
  unfold _update
  cases hfind : pools_get s q with
  | some pr =>
    dsimp only
    obtain ⟨Fpools, Ftokens, Fdexes, Ftlen, Fdlen, Fplen, Ftid, Fdid, Fpframe⟩ :=
      pool_update_frame s pr q
    refine ⟨?_, ?_, ?_, ?_, ?_, ?_, ?_⟩
    · intro r hr
      rw [Ftokens] at hr
      rw [Ftlen]
      exact h.tokValid r hr
    · intro r1 h1 r2 h2 hideq
      rw [Ftokens] at h1 h2
      rw [Ftid, Ftid] at hideq
      exact h.tokUniq r1 h1 r2 h2 hideq
    · intro r hr
      rw [Fdexes] at hr
      rw [Fdlen]
      exact h.dexValid r hr
    · intro r1 h1 r2 h2 hideq
      rw [Fdexes] at h1 h2
      rw [Fdid, Fdid] at hideq
      exact h.dexUniq r1 h1 r2 h2 hideq
    · intro r hr
      rw [Fpools] at hr
      rw [Fplen]
      exact h.poolValid r hr
    · intro r1 h1 r2 h2 hnet haddr
      rw [Fpools] at h1 h2
      rw [(Fpframe r1).1, (Fpframe r2).1] at hnet
      rw [(Fpframe r1).2.1, (Fpframe r2).2.1] at haddr
      exact h.poolUniq r1 h1 r2 h2 hnet haddr
    · intro r hr
      rw [Fpools] at hr
      rw [Ftokens, Fdexes, (Fpframe r).2.2.1, (Fpframe r).2.2.2.1, (Fpframe r).2.2.2.2]
      exact h.poolRefs r hr
  | none =>
    dsimp only
    unfold pools_get at hfind
    have hnone := List.find?_eq_none.mp hfind
    have hgetnew : ((s.poolHeap ++ [q]).getD s.poolHeap.length default) = q :=
      getD_concat_self _ _
    refine ⟨h.tokValid, h.tokUniq, h.dexValid, h.dexUniq, ?_, ?_, ?_⟩
    · intro r hr
      simp at hr ⊢
      rcases hr with hr | hr
      · have := h.poolValid r hr
        omega
      · omega
    · intro r1 h1 r2 h2 hnet haddr
      simp at h1 h2
      rcases h1 with h1 | h1 <;> rcases h2 with h2 | h2
      · rw [getD_append_left _ _ _ (h.poolValid r1 h1),
          getD_append_left _ _ _ (h.poolValid r2 h2)] at hnet haddr
        exact h.poolUniq r1 h1 r2 h2 hnet haddr
      · subst h2
        rw [getD_append_left _ _ _ (h.poolValid r1 h1)] at hnet haddr
        rw [hgetnew] at hnet haddr
        exact absurd (by rw [hnet, haddr]; simp) (hnone r1 h1)
      · subst h1
        rw [getD_append_left _ _ _ (h.poolValid r2 h2)] at hnet haddr
        rw [hgetnew] at hnet haddr
        exact absurd (by rw [← hnet, ← haddr]; simp) (hnone r2 h2)
      · omega
    · intro r hr
      simp at hr
      rcases hr with hr | hr
      · rw [getD_append_left _ _ _ (h.poolValid r hr)]
        exact h.poolRefs r hr
      · subst hr
        rw [hgetnew]
        exact ⟨hb, hq, hd⟩
lemma finishUpdate_wf (s : State) (p : IncomingPool) (h : WF s) :
    WF (finishUpdate s p) := by
  unfold finishUpdate _ensure_consistent_token_and_dex_references
  dsimp only
  have S1 := reconcileToken_spec s p.base_token h.tokValid h.tokUniq
  set sb := (reconcileToken s p.base_token).1 with hsb
  set rb := (reconcileToken s p.base_token).2 with hrb
  have S2 := reconcileToken_spec sb p.quote_token S1.valid S1.uniq
  set sq := (reconcileToken sb p.quote_token).1 with hsq
  set rq := (reconcileToken sb p.quote_token).2 with hrq
  have hdexValid_sq : ∀ x ∈ sq.dexes, x < sq.dexHeap.length := by
    rw [S2.dexes_eq, S2.dexHeap_eq, S1.dexes_eq, S1.dexHeap_eq]
    exact h.dexValid
  have hdexUniq_sq : ∀ r1 ∈ sq.dexes, ∀ r2 ∈ sq.dexes,
      (sq.dexHeap.getD r1 default).id = (sq.dexHeap.getD r2 default).id → r1 = r2 := by
    rw [S2.dexes_eq, S2.dexHeap_eq, S1.dexes_eq, S1.dexHeap_eq]
    exact h.dexUniq
  have S3 := reconcileDex_spec sq p.dex hdexValid_sq hdexUniq_sq
  set sd := (reconcileDex sq p.dex).1 with hsd
  set rd := (reconcileDex sq p.dex).2 with hrd
  have htokens_sb : ∀ x ∈ s.tokens, x ∈ sb.tokens := by
    rcases S1.tokens_cases with hc | ⟨hc, _⟩ <;> rw [hc] <;> intro x hx <;> simp [hx]
  have htokens_sq : ∀ x ∈ sb.tokens, x ∈ sq.tokens := by
    rcases S2.tokens_cases with hc | ⟨hc, _⟩ <;> rw [hc] <;> intro x hx <;> simp [hx]
  have hdexes_sd : ∀ x ∈ sq.dexes, x ∈ sd.dexes := by
    rcases S3.dexes_cases with hc | ⟨hc, _⟩ <;> rw [hc] <;> intro x hx <;> simp [hx]
  apply _update_wf
  · -- WF sd
    refine ⟨?_, ?_, ?_, ?_, ?_, ?_, ?_⟩
    · rw [S3.tokens_eq, S3.tokenHeap_eq]
      exact S2.valid
    · rw [S3.tokens_eq, S3.tokenHeap_eq]
      exact S2.uniq
    · exact S3.valid
    · exact S3.uniq
    · rw [S3.pools_eq, S3.poolHeap_eq, S2.pools_eq, S2.poolHeap_eq, S1.pools_eq,
        S1.poolHeap_eq]
      exact h.poolValid
    · rw [S3.pools_eq, S3.poolHeap_eq, S2.pools_eq, S2.poolHeap_eq, S1.pools_eq,
        S1.poolHeap_eq]
      exact h.poolUniq
    · rw [S3.pools_eq, S3.poolHeap_eq, S2.pools_eq, S2.poolHeap_eq, S1.pools_eq,
        S1.poolHeap_eq, S3.tokens_eq]
      intro r hr
      obtain ⟨hb1, hq1, hd1⟩ := h.poolRefs r hr
      exact ⟨htokens_sq _ (htokens_sb _ hb1), htokens_sq _ (htokens_sb _ hq1),
        hdexes_sd _ (by rw [S2.dexes_eq, S1.dexes_eq]; exact hd1)⟩
  · -- base reference is a member
    show rb ∈ sd.tokens
    rw [S3.tokens_eq]
    exact htokens_sq _ S1.mem
  · show rq ∈ sd.tokens
    rw [S3.tokens_eq]
    exact S2.mem
  · show rd ∈ sd.dexes
    exact S3.mem
lemma foldSet_acc_sub (f : Nat → String) :
    ∀ (l acc : List Nat) (x : Nat), x ∈ acc → x ∈ l.foldl (natSetAddBy f) acc := by
  intro l
  induction l with
  | nil => intro acc x hx; exact hx
  | cons a t ih =>
    intro acc x hx
    apply ih
    unfold natSetAddBy
    split
    · exact hx
    · simp [hx]

lemma foldSet_mem_src (f : Nat → String) :
    ∀ (l acc : List Nat) (x : Nat), x ∈ l.foldl (natSetAddBy f) acc → x ∈ acc ∨ x ∈ l := by
  intro l
  induction l with
  | nil => intro acc x hx; exact Or.inl hx
  | cons a t ih =>
    intro acc x hx
    rcases ih _ x hx with hx2 | hx2
    · unfold natSetAddBy at hx2
      split at hx2
      · exact Or.inl hx2
      · simp at hx2
        rcases hx2 with hx2 | hx2
        · exact Or.inl hx2
        · subst hx2
          simp
    · simp [hx2]

lemma foldSet_covers (f : Nat → String) :
    ∀ (l acc : List Nat) (d : Nat), d ∈ l →
      ∃ m ∈ l.foldl (natSetAddBy f) acc, f m = f d := by
  intro l
  induction l with
  | nil => intro acc d hd; cases hd
  | cons a t ih =>
    intro acc d hd
    rcases List.mem_cons.mp hd with hd | hd
    · subst hd
      by_cases hin : acc.any (fun r2 => f r2 == f d) = true
      · simp only [List.any_eq_true, beq_iff_eq] at hin
        obtain ⟨y, hy, hfy⟩ := hin
        exact ⟨y, foldSet_acc_sub f (d :: t) acc y hy, hfy⟩
      · refine ⟨d, ?_, rfl⟩
        show d ∈ t.foldl (natSetAddBy f) (natSetAddBy f acc d)
        apply foldSet_acc_sub
        unfold natSetAddBy
        rw [if_neg hin]
        simp
    · exact ih _ d hd

lemma foldSet_uniq (f : Nat → String) :
    ∀ (l acc : List Nat),
      (∀ x1 ∈ acc, ∀ x2 ∈ acc, f x1 = f x2 → x1 = x2) →
      ∀ x1 ∈ l.foldl (natSetAddBy f) acc, ∀ x2 ∈ l.foldl (natSetAddBy f) acc,
        f x1 = f x2 → x1 = x2 := by
  intro l
  induction l with
  | nil => intro acc hacc; exact hacc
  | cons a t ih =>
    intro acc hacc
    apply ih
    unfold natSetAddBy
    split
    · exact hacc
    · rename_i hnotin
      intro x1 h1 x2 h2 hf
      simp at h1 h2
      rcases h1 with h1 | h1 <;> rcases h2 with h2 | h2
      · exact hacc x1 h1 x2 h2 hf
      · subst h2
        exfalso
        apply hnotin
        simp only [List.any_eq_true, beq_iff_eq]
        exact ⟨x1, h1, hf⟩
      · subst h1
        exfalso
        apply hnotin
        simp only [List.any_eq_true, beq_iff_eq]
        exact ⟨x2, h2, hf.symm⟩
      · omega
lemma kill_rebuild_wf (s : State) (qr : Nat) (h : WF s) :
    WF { { s with pools := s.pools.erase qr } with
         dexes := rebuildDexes { s with pools := s.pools.erase qr } } := by
  refine ⟨h.tokValid, h.tokUniq, ?_, ?_, ?_, ?_, ?_⟩
  · intro x hx
    unfold rebuildDexes at hx
    rcases foldSet_mem_src _ _ _ _ hx with hx2 | hx2
    · cases hx2
    · simp only [List.mem_map] at hx2
      obtain ⟨r, hr, rfl⟩ := hx2
      have hr2 : r ∈ s.pools := List.mem_of_mem_erase hr
      exact h.dexValid _ (h.poolRefs r hr2).2.2
  · intro r1 h1 r2 h2 hid
    unfold rebuildDexes at h1 h2
    exact foldSet_uniq _ _ _ (by intro x hx; cases hx) r1 h1 r2 h2 hid
  · intro r hr
    exact h.poolValid r (List.mem_of_mem_erase hr)
  · intro r1 h1 r2 h2 hnet haddr
    exact h.poolUniq r1 (List.mem_of_mem_erase h1) r2 (List.mem_of_mem_erase h2) hnet haddr
  · intro r hr
    have hr2 : r ∈ s.pools := List.mem_of_mem_erase hr
    obtain ⟨hb1, hq1, hd1⟩ := h.poolRefs r hr2
    refine ⟨hb1, hq1, ?_⟩
    unfold rebuildDexes
    have hinput : (s.poolHeap.getD r default).dex
        ∈ (s.pools.erase qr).map (fun r => (s.poolHeap.getD r default).dex) :=
      List.mem_map.mpr ⟨r, hr, rfl⟩
    obtain ⟨m, hm, hfm⟩ := foldSet_covers
      (fun r => (s.dexHeap.getD r default).id) _ [] _ hinput
    have hmsrc : m ∈ s.dexes := by
      rcases foldSet_mem_src _ _ _ _ hm with hx | hx
      · cases hx
      · simp only [List.mem_map] at hx
        obtain ⟨r3, hr3, rfl⟩ := hx
        exact (h.poolRefs r3 (List.mem_of_mem_erase hr3)).2.2
    have : m = (s.poolHeap.getD r default).dex := h.dexUniq m hmsrc _ hd1 hfm
    rw [← this]
    exact hm

lemma update_wf (s : State) (p : IncomingPool) (h : WF s) : WF (update s p) := by
  unfold update
  split
  · exact h
  · cases hrk : s.repeated_pool_filter_key with
    | none => exact finishUpdate_wf s p h
    | some key =>
      dsimp only
      cases hfind : s.pools.find? (fun r =>
          tokenIdEqB (s.tokenHeap.getD (s.poolHeap.getD r default).base_token default)
              p.base_token
            && tokenIdEqB (s.tokenHeap.getD (s.poolHeap.getD r default).quote_token default)
                p.quote_token) with
      | none => exact finishUpdate_wf s p h
      | some qr =>
        dsimp only
        split
        · have hk := kill_rebuild_wf s qr h
          rw [hrk] at hk
          exact finishUpdate_wf _ p hk
        · exact h

lemma reach_wf (s : State) (h : Reach s) : WF s := by
  induction h with
  | init pf rk =>
    refine ⟨?_, ?_, ?_, ?_, ?_, ?_, ?_⟩ <;> intro x hx <;> cases hx
  | step s p _ ih => exact update_wf s p ih
/-- Scenario conclusions of C7: updating a well-formed registry (no filters
configured) with a pool whose base token identity is already tracked under
reference r leaves r as the unique token reference with that identity,
overwrites the ticker of the object at r with the incoming value, and stores
a pool with the incoming identity whose base token reference is r. -/
lemma update_scenario (s : State) (p : IncomingPool) (r : Nat) (h : WF s)
    (hpf : s.pool_filter = none) (hrk : s.repeated_pool_filter_key = none)
    (hr : r ∈ s.tokens)
    (hid : (s.tokenHeap.getD r default).identity = p.base_token.identity)
    (hbq : p.base_token.identity ≠ p.quote_token.identity)
    (hcompat : ∀ qr ∈ s.pools,
      (s.poolHeap.getD qr default).network = p.network →
      (s.poolHeap.getD qr default).address = p.address →
      (s.tokenHeap.getD (s.poolHeap.getD qr default).base_token default).identity
          = p.base_token.identity
        ∧ (s.tokenHeap.getD (s.poolHeap.getD qr default).quote_token default).identity
          = p.quote_token.identity) :
    (∀ r2 ∈ (update s p).tokens,
      ((update s p).tokenHeap.getD r2 default).identity = p.base_token.identity → r2 = r)
    ∧ r ∈ (update s p).tokens
    ∧ ((update s p).tokenHeap.getD r default).ticker = p.base_token.ticker
    ∧ ∃ qr ∈ (update s p).pools,
        ((update s p).poolHeap.getD qr default).network = p.network
        ∧ ((update s p).poolHeap.getD qr default).address = p.address
        ∧ ((update s p).poolHeap.getD qr default).base_token = r := by
  have hupd : update s p = finishUpdate s p := by
    unfold update
    rw [hpf, hrk]
    rfl
  rw [hupd]
  clear hupd
  unfold finishUpdate _ensure_consistent_token_and_dex_references
  dsimp only
  have S1 := reconcileToken_spec s p.base_token h.tokValid h.tokUniq
  set sb := (reconcileToken s p.base_token).1 with hsb
  set rb := (reconcileToken s p.base_token).2 with hrb
  have S2 := reconcileToken_spec sb p.quote_token S1.valid S1.uniq
  set sq := (reconcileToken sb p.quote_token).1 with hsq
  set rq := (reconcileToken sb p.quote_token).2 with hrq
  have hdexValid_sq : ∀ x ∈ sq.dexes, x < sq.dexHeap.length := by
    rw [S2.dexes_eq, S2.dexHeap_eq, S1.dexes_eq, S1.dexHeap_eq]
    exact h.dexValid
  have hdexUniq_sq : ∀ r1 ∈ sq.dexes, ∀ r2 ∈ sq.dexes,
      (sq.dexHeap.getD r1 default).id = (sq.dexHeap.getD r2 default).id → r1 = r2 := by
    rw [S2.dexes_eq, S2.dexHeap_eq, S1.dexes_eq, S1.dexHeap_eq]
    exact h.dexUniq
  have S3 := reconcileDex_spec sq p.dex hdexValid_sq hdexUniq_sq
  set sd := (reconcileDex sq p.dex).1 with hsd
  set rd := (reconcileDex sq p.dex).2 with hrd
  -- the base reference found is exactly r
  have hrlen : r < s.tokenHeap.length := h.tokValid r hr
  have hr_sb : r ∈ sb.tokens := by
    rcases S1.tokens_cases with hc | ⟨hc, _⟩ <;> rw [hc] <;> simp [hr]
  have hid_sb_r : (sb.tokenHeap.getD r default).identity = p.base_token.identity := by
    rw [S1.preserve_id r hrlen]
    exact hid
  have hrb_eq : rb = r := S1.uniq rb S1.mem r hr_sb (by rw [S1.id_eq, hid_sb_r])
  -- the ticker at r after the base step
  have hticker_sb : (sb.tokenHeap.getD r default).ticker = p.base_token.ticker := by
    rw [← hrb_eq]
    exact S1.ticker_eq
  -- the quote reference differs from r
  have hrlen_sb : r < sb.tokenHeap.length := Nat.lt_of_lt_of_le hrlen S1.len_mono
  have hid_sq_r : (sq.tokenHeap.getD r default).identity = p.base_token.identity := by
    rw [S2.preserve_id r hrlen_sb]
    exact hid_sb_r
  have hrq_ne : rq ≠ r := by
    intro he
    apply hbq
    rw [← S2.id_eq, he, hid_sq_r]
  have hticker_sq : (sq.tokenHeap.getD r default).ticker = p.base_token.ticker := by
    rw [S2.preserve_other r (fun he => hrq_ne he.symm)]
    exact hticker_sb
  have hr_sq : r ∈ sq.tokens := by
    rcases S2.tokens_cases with hc | ⟨hc, _⟩ <;> rw [hc] <;> simp [hr_sb]
  -- transported to the post-dex state
  have hid_sd_r : (sd.tokenHeap.getD r default).identity = p.base_token.identity := by
    rw [S3.tokenHeap_eq]
    exact hid_sq_r
  have hticker_sd : (sd.tokenHeap.getD r default).ticker = p.base_token.ticker := by
    rw [S3.tokenHeap_eq]
    exact hticker_sq
  have hr_sd : r ∈ sd.tokens := by
    rw [S3.tokens_eq]
    exact hr_sq
  have huniq_sd : ∀ r1 ∈ sd.tokens, ∀ r2 ∈ sd.tokens,
      (sd.tokenHeap.getD r1 default).identity = (sd.tokenHeap.getD r2 default).identity →
      r1 = r2 := by
    rw [S3.tokens_eq, S3.tokenHeap_eq]
    exact S2.uniq
  have hpools_sd : sd.pools = s.pools := by
    rw [S3.pools_eq, S2.pools_eq, S1.pools_eq]
  have hpoolHeap_sd : sd.poolHeap = s.poolHeap := by
    rw [S3.poolHeap_eq, S2.poolHeap_eq, S1.poolHeap_eq]
  -- the rewired incoming pool
  rw [hrb_eq]
  unfold _update
  cases hfind : pools_get sd
      ⟨p.network, p.address, r, rq, p.price_usd, p.price_native, p.liquidity, p.volume,
       p.fdv, p.price_change, rd, p.creation_date⟩ with
  | some pr =>
    dsimp only
    unfold pools_get at hfind
    have hprmem : pr ∈ sd.pools := List.mem_of_find?_eq_some hfind
    have hpred := List.find?_some hfind
    simp only [Bool.and_eq_true, beq_iff_eq] at hpred
    have hprmem_s : pr ∈ s.pools := by
      rw [← hpools_sd]
      exact hprmem
    have hnet : (s.poolHeap.getD pr default).network = p.network := by
      rw [← hpoolHeap_sd]
      try exact hpred.1
    have haddr : (s.poolHeap.getD pr default).address = p.address := by
      rw [← hpoolHeap_sd]
      exact hpred.2
    obtain ⟨hcb, hcq⟩ := hcompat pr hprmem_s hnet haddr
    -- the stored pool's base reference is r, its quote reference is not r
    have hspbase_mem : (s.poolHeap.getD pr default).base_token ∈ s.tokens :=
      (h.poolRefs pr hprmem_s).1
    have hspbase_eq : (s.poolHeap.getD pr default).base_token = r :=
      h.tokUniq _ hspbase_mem r hr (by rw [hcb, hid])
    have hspquote_mem : (s.poolHeap.getD pr default).quote_token ∈ s.tokens :=
      (h.poolRefs pr hprmem_s).2.1
    have hspquote_ne : (s.poolHeap.getD pr default).quote_token ≠ r := by
      intro he
      apply hbq
      rw [← hcq, he, hid]
    obtain ⟨Fpools, Ftokens, Fdexes, Ftlen, Fdlen, Fplen, Ftid, Fdid, Fpframe⟩ :=
      pool_update_frame sd pr
        ⟨p.network, p.address, r, rq, p.price_usd, p.price_native, p.liquidity, p.volume,
         p.fdv, p.price_change, rd, p.creation_date⟩
    refine ⟨?_, ?_, ?_, ⟨pr, ?_, ?_, ?_, ?_⟩⟩
    · intro r2 hr2 hid2
      rw [Ftokens] at hr2
      rw [Ftid] at hid2
      exact huniq_sd r2 hr2 r hr_sd (by rw [hid2, hid_sd_r])
    · rw [Ftokens]
      exact hr_sd
    · -- ticker at r after pool_update
      unfold pool_update
      dsimp only
      have hspq_ne2 : (sd.poolHeap.getD pr default).quote_token ≠ r := by
        rw [hpoolHeap_sd]
        exact hspquote_ne
      rw [getD_set_ne _ _ _ _ hspq_ne2]
      have hspb_eq2 : (sd.poolHeap.getD pr default).base_token = r := by
        rw [hpoolHeap_sd]
        exact hspbase_eq
      rw [hspb_eq2]
      have hrlt : r < sd.tokenHeap.length := by
        rw [S3.tokenHeap_eq]
        exact S2.valid r hr_sq
      rw [getD_set_self _ _ _ hrlt]
      show (Token.update _ _).ticker = _
      unfold Token.update
      dsimp only
      exact hticker_sd
    · rw [Fpools]
      exact hprmem
    · rw [(Fpframe pr).1, hpoolHeap_sd]
      try exact hnet
    · rw [(Fpframe pr).2.1, hpoolHeap_sd]
      exact haddr
    · rw [(Fpframe pr).2.2.1, hpoolHeap_sd]
      exact hspbase_eq
  | none =>
    dsimp only
    refine ⟨?_, ?_, ?_, ⟨sd.poolHeap.length, ?_, ?_, ?_, ?_⟩⟩
    · intro r2 hr2 hid2
      exact huniq_sd r2 hr2 r hr_sd (by rw [hid2, hid_sd_r])
    · exact hr_sd
    · exact hticker_sd
    · simp
    · rw [getD_concat_self]
    · rw [getD_concat_self]
    · rw [getD_concat_self]

end PoolsHeap

end DexScanner

open DexScanner

/-- Shorthand for a closed Tick sample with zero volume. -/
def mkTick (ts : Int) (p : ℚ) : BaseTick := .tick ts p 0

/-- A CircularList of capacity 2 filled exactly to its capacity without
wrapping (beginning 0, size 2). -/
def fullTwo : CircularList ℚ := (CircularList.init ℚ 2).extend [1, 2]

/-- A chart CircularList (capacity CHART_MAX_TICKS = 2000) holding three
samples at timestamps 0, 60, 120. -/
def chartThree : CircularList BaseTick :=
  (CircularList.init BaseTick ExtChart.CHART_MAX_TICKS).extend
    [mkTick 0 100, mkTick 60 101, mkTick 120 102]

/-- C3, failing input.  The claim (and spec §4.2) say the batch anchor is the
first logical index whose existing sample timestamp is ≥ the first batch
timestamp — for the chart [0, 60, 120] and batch [120, 180, 240] that is
index 2, so the expected result is [0, 60, 120, 180, 240].  The code compares
in the opposite direction (`ticks[0].timestamp >= self.ticks[i].timestamp`),
which already holds at index 0, so the whole history is overwritten: the
result is just the batch, discarding the settled samples at 0 and 60. -/
theorem c3_batch_anchor_comparison_reversed :
    (ExtChart.update chartThree
        (.batch [mkTick 120 102, mkTick 180 103, mkTick 240 104])).map
      CircularList.toList
      = .ok [some (mkTick 120 102), some (mkTick 180 103), some (mkTick 240 104)]
    ∧ (ExtChart.update chartThree
        (.batch [mkTick 120 102, mkTick 180 103, mkTick 240 104])).map
      CircularList.toList
      ≠ .ok [some (mkTick 0 100), some (mkTick 60 101), some (mkTick 120 102),
             some (mkTick 180 103), some (mkTick 240 104)] := by
  decide

/-- Incoming pool that first registers token tok-x with ticker OLD. -/
def c7PoolOld : PoolsHeap.IncomingPool :=
  { network := .ton, address := "pool-7"
    base_token := { network := .ton, address := "tok-x", ticker := some "OLD" }
    quote_token := { network := .ton, address := "tok-y" }
    price_usd := 1, price_native := 1, liquidity := 10, volume := 1, fdv := 1
    price_change := {}, dex := { id := "dex-7" }, creation_date := 0 }

/-- The same pool fetched again, its base token now carrying ticker NEW. -/
def c7PoolNew : PoolsHeap.IncomingPool :=
  { c7PoolOld with
    base_token := { network := .ton, address := "tok-x", ticker := some "NEW" } }

/-- Registry after tracking c7PoolOld from an empty registry. -/
def c7S1 : PoolsHeap.State :=
  PoolsHeap.update (PoolsHeap.init none none) c7PoolOld

/-- C7.  In every reachable registry the token set holds at most one
reference per token identity and the DEX set at most one per id; and updating
(with no filters configured) with a pool whose base token identity is already
tracked under reference r and whose ticker differs leaves r as the unique
reference with that identity, overwrites the ticker of the object at r with
the incoming value, and the stored pool with the incoming identity references
r as its base token.  The compatibility hypothesis says a tracked pool with
the incoming pool identity, if any, carries the same base and quote token
identities as the incoming pool, and the incoming base and quote identities
differ — both hold in normal operation, where a pool never changes its token
pair. -/
theorem c7_registry_single_canonical_token_per_identity
    (s : PoolsHeap.State) (p : PoolsHeap.IncomingPool) (r : Nat)
    (hreach : PoolsHeap.Reach s)
    (hpf : s.pool_filter = none) (hrk : s.repeated_pool_filter_key = none)
    (hr : r ∈ s.tokens)
    (hid : (s.tokenHeap.getD r default).identity = p.base_token.identity)
    (hticker : (s.tokenHeap.getD r default).ticker ≠ p.base_token.ticker)
    (hbq : p.base_token.identity ≠ p.quote_token.identity)
    (hcompat : ∀ qr ∈ s.pools,
      (s.poolHeap.getD qr default).network = p.network →
      (s.poolHeap.getD qr default).address = p.address →
      (s.tokenHeap.getD (s.poolHeap.getD qr default).base_token default).identity
          = p.base_token.identity
        ∧ (s.tokenHeap.getD (s.poolHeap.getD qr default).quote_token default).identity
          = p.quote_token.identity) :
    ((∀ r1 ∈ s.tokens, ∀ r2 ∈ s.tokens,
        (s.tokenHeap.getD r1 default).identity = (s.tokenHeap.getD r2 default).identity →
        r1 = r2)
      ∧ (∀ r1 ∈ s.dexes, ∀ r2 ∈ s.dexes,
          (s.dexHeap.getD r1 default).id = (s.dexHeap.getD r2 default).id → r1 = r2))
    ∧ (∀ r2 ∈ (PoolsHeap.update s p).tokens,
        ((PoolsHeap.update s p).tokenHeap.getD r2 default).identity = p.base_token.identity →
        r2 = r)
    ∧ r ∈ (PoolsHeap.update s p).tokens
    ∧ ((PoolsHeap.update s p).tokenHeap.getD r default).ticker = p.base_token.ticker
    ∧ ∃ qr ∈ (PoolsHeap.update s p).pools,
        ((PoolsHeap.update s p).poolHeap.getD qr default).network = p.network
        ∧ ((PoolsHeap.update s p).poolHeap.getD qr default).address = p.address
        ∧ ((PoolsHeap.update s p).poolHeap.getD qr default).base_token = r := by
  have h := PoolsHeap.reach_wf s hreach
  exact ⟨⟨h.tokUniq, h.dexUniq⟩,
    PoolsHeap.update_scenario s p r h hpf hrk hr hid hbq hcompat⟩

/-- C7 witness: a registry holding one pool whose base token tok-x has ticker
OLD, updated with the same pool carrying ticker NEW; the canonical token
reference is 0. -/
theorem c7_registry_canonical_token_witness :
    (0 ∈ c7S1.tokens
      ∧ (c7S1.tokenHeap.getD 0 default).identity = c7PoolNew.base_token.identity
      ∧ (c7S1.tokenHeap.getD 0 default).ticker ≠ c7PoolNew.base_token.ticker)
    ∧ (((∀ r1 ∈ c7S1.tokens, ∀ r2 ∈ c7S1.tokens,
          (c7S1.tokenHeap.getD r1 default).identity
              = (c7S1.tokenHeap.getD r2 default).identity → r1 = r2)
        ∧ (∀ r1 ∈ c7S1.dexes, ∀ r2 ∈ c7S1.dexes,
            (c7S1.dexHeap.getD r1 default).id = (c7S1.dexHeap.getD r2 default).id → r1 = r2))
      ∧ (∀ r2 ∈ (PoolsHeap.update c7S1 c7PoolNew).tokens,
          ((PoolsHeap.update c7S1 c7PoolNew).tokenHeap.getD r2 default).identity
              = c7PoolNew.base_token.identity → r2 = 0)
      ∧ 0 ∈ (PoolsHeap.update c7S1 c7PoolNew).tokens
      ∧ ((PoolsHeap.update c7S1 c7PoolNew).tokenHeap.getD 0 default).ticker
          = c7PoolNew.base_token.ticker
      ∧ ∃ qr ∈ (PoolsHeap.update c7S1 c7PoolNew).pools,
          ((PoolsHeap.update c7S1 c7PoolNew).poolHeap.getD qr default).network
              = c7PoolNew.network
          ∧ ((PoolsHeap.update c7S1 c7PoolNew).poolHeap.getD qr default).address
              = c7PoolNew.address
          ∧ ((PoolsHeap.update c7S1 c7PoolNew).poolHeap.getD qr default).base_token = 0) :=
  ⟨⟨by decide, by decide, by decide⟩,
    c7_registry_single_canonical_token_per_identity c7S1 c7PoolNew 0
      (PoolsHeap.Reach.step _ _ (PoolsHeap.Reach.init none none)) rfl rfl
      (by decide) (by decide) (by decide) (by decide) (by decide)⟩

/-- C8, counterexample.  The claim says every logical slice of a CircularList
equals the matching slice of the equivalent linear list.  For a buffer of
capacity 2 filled exactly to capacity without wrapping (beginning 0, size 2),
the physical stop index of the full range 0..2 reduces to 0 modulo the
capacity and the integral branch returns data[0:0] — the empty list — while
the linear buffer slice holds both elements. -/
theorem c8_counterexample_full_slice_of_full_buffer :
    fullTwo.getSlice (some 0) (some 2)
      ≠ .ok (CircularList.sliceList fullTwo.toList 0 2)
    ∧ fullTwo.getSlice (some 0) (some 2) = .ok []
    ∧ CircularList.sliceList fullTwo.toList 0 2 = [some 1, some 2] := by
  decide

/-- A CircularList of capacity 3 that has wrapped: four appends, so the
physical storage is [4, 2, 3] with beginning 1 and logical content 2, 3, 4. -/
def wrappedFour : CircularList ℚ := (CircularList.init ℚ 3).extend [1, 2, 3, 4]

/-- C8 witness: the amended slice equivalence applied to a concrete wrapped
buffer and the full logical range, which straddles the physical end. -/
theorem c8_witness_wrapped_slice :
    (wrappedFour.data.length = wrappedFour.capacity
      ∧ wrappedFour.size ≤ wrappedFour.capacity
      ∧ wrappedFour.beginning < wrappedFour.capacity
      ∧ 0 ≤ 3 ∧ 3 ≤ wrappedFour.size
      ∧ (wrappedFour.capacity < wrappedFour.beginning + wrappedFour.size
          ∨ wrappedFour.beginning + 3 ≠ wrappedFour.capacity ∨ 0 = 3))
    ∧ wrappedFour.getSlice (some 0) (some 3)
        = .ok (CircularList.sliceList wrappedFour.toList 0 3) :=
  ⟨by decide,
    CircularList.c8_amended_slice_refines_linear wrappedFour 0 3 (by decide) (by decide)
      (by decide) (by decide) (by decide) (by decide)⟩

/-- C9.  In the strict chart-update variant, the claim says
TimeGapBetweenCharts is raised iff no existing sample timestamp equals the
first batch timestamp, and that an anchor at index 0 overwrites the chart
without an exception.  The code instead raises at an anchor at index 0: the
walrus-bound index 0 is falsy, so the `else` branch raises even though an
overlapping anchor exists.  This theorem evaluates the embedded code at the
failing input: a chart of two samples and a batch whose first timestamp equals
the timestamp of the sample at index 0 — the claim expects the chart to be
overwritten from index 0 to the batch, the code raises TimeGapBetweenCharts. -/
theorem c9_strict_update_anchor_at_index_zero_raises :
    NetworkChart.update
        [⟨0, 100, none⟩, ⟨60, 101, none⟩]
        (.batch [⟨0, 100, none⟩, ⟨60, 102, none⟩, ⟨120, 103, none⟩])
      = .error .timeGapBetweenCharts
    ∧ NetworkChart.update
        [⟨0, 100, none⟩, ⟨60, 101, none⟩]
        (.batch [⟨0, 100, none⟩, ⟨60, 102, none⟩, ⟨120, 103, none⟩])
      ≠ .ok [⟨0, 100, none⟩, ⟨60, 102, none⟩, ⟨120, 103, none⟩] := by
  decide

/-- C10.  In the strict chart-update variant, updating an empty chart with a
single sample is a silent no-op: the chart stays empty and nothing is raised,
because the whole single-sample branch is guarded by `if self.candlesticks:`.
Quantified over every sample. -/
theorem c10_strict_update_single_on_empty_chart_is_noop (c : Candlestick) :
    NetworkChart.update [] (.single c) = .ok [] := by
  rfl

/-- C1.  The claim says two Pools constructed without an explicit chart own
distinct Chart objects and appending to one leaves the other unchanged.  The
code declares `chart: Chart = Chart()`, a dataclass default evaluated once, so
all such Pools share one Chart object.  This theorem evaluates the embedded
constructor at the failing input: two pools constructed without a chart
argument hold the same chart reference, and after appending one candlestick
through the chart of pool 1, the samples seen through the chart of pool 2 are
no longer empty — they are the appended sample. -/
theorem c1_pools_share_default_chart_object :
    (SharedDefault.mkPool SharedDefault.classDefinitionHeap SharedDefault.p1Args none).2.chart
      = (SharedDefault.mkPool SharedDefault.classDefinitionHeap SharedDefault.p2Args none).2.chart
    ∧ (SharedDefault.chartUpdate SharedDefault.classDefinitionHeap
          (SharedDefault.mkPool SharedDefault.classDefinitionHeap SharedDefault.p1Args none).2.chart
          (.batch [⟨0, 100, none⟩])).map
        (fun h => SharedDefault.chartSamples h
          (SharedDefault.mkPool SharedDefault.classDefinitionHeap SharedDefault.p2Args none).2.chart)
      = .ok [⟨0, 100, none⟩] := by
  decide

/-- C6.  First conjunct, the general step: whenever the merge loop stands at
cursor i with three trends ahead whose outer two share a sign, whose first two
do not, and whose middle magnitude is at most both flanks and at most the 5
percent noise threshold, that iteration merges the three into one trend whose
change is the sum of the three changes and whose span runs from the first
trend beginning to the third trend end, retreating the cursor by two.  Second
conjunct, the concrete instance: the tick series with unit changes +2 percent,
-1 percent, +3 percent segments to the single trend of change 4 percent
(1/25) spanning index 0 to index 3. -/
theorem c6_noise_merge_absorbs_small_reversal :
    (∀ (trends : List Trend) (i : Nat) (h : i + 2 < trends.length),
      Trend.have_same_trend trends[i] trends[i + 2] →
      ¬Trend.have_same_trend trends[i] trends[i + 1] →
      |trends[i + 1].change| ≤ min |trends[i].change| |trends[i + 2].change| →
      |trends[i + 1].change| ≤ TICK_MERGE_MAXIMUM_CHANGE →
      mergeLoopRun trends i
        = mergeLoopRun
            ((((trends.erase trends[i]).erase trends[i + 1]).erase trends[i + 2]).insertIdx i
              ⟨trends[i].change + trends[i + 1].change + trends[i + 2].change,
               trends[i].beginning, trends[i + 2].ending⟩)
            (i - 2))
    ∧ _construct_segments c6Ticks = [⟨1 / 25, 0, 3⟩] := by
  constructor
  · intro trends i h h13 h12 hmin hthr
    have hc : Trend.can_be_merged trends[i] trends[i + 1] trends[i + 2] := ⟨h13, h12, hmin, hthr⟩
    have h12' : trends[i].change * trends[i + 1].change < 0 := lt_of_not_ge h12
    have hne1 : trends[i].change ≠ 0 := by
      intro h0
      rw [h0] at h12'
      simp at h12'
    have hne2 : trends[i + 1].change ≠ 0 := by
      intro h0
      rw [h0] at h12'
      simp at h12'
    have hne3 : trends[i + 2].change ≠ 0 := by
      have h2pos : 0 < |trends[i + 1].change| := abs_pos.mpr hne2
      have h3pos : (0:ℚ) < |trends[i + 2].change| :=
        lt_of_lt_of_le h2pos (le_trans hmin (min_le_right _ _))
      exact abs_pos.mp h3pos
    have h13pos : 0 < trends[i].change * trends[i + 2].change :=
      lt_of_le_of_ne h13 (Ne.symm (mul_ne_zero hne1 hne3))
    have h23 : ¬Trend.have_same_trend trends[i + 1] trends[i + 2] := by
      intro hge
      have hprod : (trends[i].change * trends[i + 1].change)
          * (trends[i].change * trends[i + 2].change) < 0 :=
        mul_neg_of_neg_of_pos h12' h13pos
      have hring : (trends[i].change * trends[i + 1].change)
          * (trends[i].change * trends[i + 2].change)
          = (trends[i].change * trends[i].change)
            * (trends[i + 1].change * trends[i + 2].change) := by ring
      rw [hring] at hprod
      have hge2 : 0 ≤ (trends[i].change * trends[i].change)
          * (trends[i + 1].change * trends[i + 2].change) :=
        mul_nonneg (mul_self_nonneg _) hge
      linarith
    have hstep1 : (mergeStep trends i h).1
        = (((trends.erase trends[i]).erase trends[i + 1]).erase trends[i + 2]).insertIdx i
            ⟨trends[i].change + trends[i + 1].change + trends[i + 2].change,
             trends[i].beginning, trends[i + 2].ending⟩ := by
      simp only [mergeStep]
      rw [if_neg h12, if_neg h23, if_pos hc]
      rfl
    have hstep2 : (mergeStep trends i h).2 = i - 2 := by
      simp only [mergeStep]
      rw [if_neg h12, if_neg h23, if_pos hc]
    have hlenm : (mergeStep trends i h).1.length + 1 ≤ trends.length := by
      rcases mergeStep_cases trends i h with ⟨hl, _⟩ | ⟨_, hi2⟩
      · exact hl
      · rw [hstep2] at hi2
        omega
    rw [hstep1] at hlenm
    unfold mergeLoopRun
    obtain ⟨m, hm⟩ : ∃ m, 3 * trends.length = m + 1 := ⟨3 * trends.length - 1, by omega⟩
    rw [hm, mergeLoopF, dif_pos h, hstep1, hstep2]
    apply mergeLoopF_congr
    · omega
    · omega
  · decide

/-- C5.  The claim says a chart whose trailing trends match a signal has
has_signal(only_new=True) report the signal and record the last-sample
timestamp of the latest matched trend (here 180).  On the failing input — a
fresh chart whose trailing one-minute -1/17 drop matches DUMP and whose
signal-end timestamp was never recorded (None) — the code instead evaluates
`first_timestamp < None` and raises TypeError. -/
theorem c5_only_new_first_signal_raises_typeerror :
    has_signal ⟨c5Ticks, none⟩ true = .error .typeError
    ∧ has_signal ⟨c5Ticks, none⟩ true ≠ .ok (true, ⟨c5Ticks, some 180⟩) := by
  decide

/-- C2.  The claim says every invocation of update_using_api, regardless of
the cycle counter, batches the tracked-plus-candidate addresses and fetches
enrichment for every batch.  The code gates address collection on
update_counter % 20 == 0 and collects only candidate addresses: the first
conjunct shows no enrichment batch at all is issued on any other cycle, even
with tracked pools present; the second that every batched address comes from
the discovery candidates, so tracked pool addresses are never enriched. -/
theorem c2_enrichment_gated_and_ignores_tracked_pools :
    (∀ (counter : Nat) (discovered : List String) (m : Nat),
        counter % 20 ≠ 0 →
        PoolsWithAPI.update_using_api_batches counter discovered m = [])
    ∧ (∀ (counter : Nat) (discovered : List String) (m : Nat)
        (batch : List String) (a : String),
        batch ∈ PoolsWithAPI.update_using_api_batches counter discovered m →
        a ∈ batch → a ∈ discovered) := by
  constructor
  · intro counter discovered m hc
    have hsat : PoolsWithAPI._satisfy counter PoolsWithAPI.CHECK_FOR_NEW_TOKENS_EVERY_UPDATE
        = false := by
      simp [PoolsWithAPI._satisfy, PoolsWithAPI.CHECK_FOR_NEW_TOKENS_EVERY_UPDATE]
      omega
    simp only [PoolsWithAPI.update_using_api_batches, PoolsWithAPI.update_using_api_addresses,
      hsat, Bool.false_eq_true, if_false, PoolsWithAPI.make_batches, List.length_nil]
    rcases Nat.eq_zero_or_pos m with hm | hm
    · subst hm
      rfl
    · rw [Nat.div_eq_of_lt (by omega)]
      rfl
  · intro counter discovered m batch a hbatch ha
    simp only [PoolsWithAPI.update_using_api_batches, PoolsWithAPI.make_batches,
      List.mem_map, List.mem_range] at hbatch
    obtain ⟨k, _, rfl⟩ := hbatch
    have ha2 := List.mem_of_mem_drop (List.mem_of_mem_take ha)
    simp only [PoolsWithAPI.update_using_api_addresses] at ha2
    by_cases hsat : PoolsWithAPI._satisfy counter PoolsWithAPI.CHECK_FOR_NEW_TOKENS_EVERY_UPDATE
    · rwa [if_pos hsat] at ha2
    · rw [if_neg hsat] at ha2
      cases ha2

/-- C2 witness: cycle counter 1 with one candidate address and batch size 30
issues no enrichment batch. -/
theorem c2_enrichment_gated_witness :
    1 % 20 ≠ 0
    ∧ PoolsWithAPI.update_using_api_batches 1 ["addr-1"] 30 = [] :=
  ⟨by decide, c2_enrichment_gated_and_ignores_tracked_pools.1 1 ["addr-1"] 30 (by decide)⟩

/-- C4.  The claim says apply_filter leaves the token set equal to the base
and quote tokens of the surviving pools and the DEX set equal to their DEXes.
On the failing input (pool-1 passes the liquidity predicate, pool-2 fails)
the code instead assigns the surviving DEX set to self.tokens (the line-105
slip) and never reassigns self.dexes: afterwards the token set holds the DEX
entity dex-1 instead of tok-a and tok-b, and the DEX set still holds the
pruned dex-2. -/
theorem c4_apply_filter_overwrites_tokens_with_dexes :
    (PoolsValue.apply_filter PoolsValue.c4State).pools = [PoolsValue.p1]
    ∧ (PoolsValue.apply_filter PoolsValue.c4State).tokens = [.dex { id := "dex-1" }]
    ∧ (PoolsValue.apply_filter PoolsValue.c4State).dexes
        = [{ id := "dex-1" }, { id := "dex-2" }]
    ∧ (PoolsValue.apply_filter PoolsValue.c4State).tokens
        ≠ [.tok { network := .ton, address := "tok-a" },
           .tok { network := .ton, address := "tok-b" }]
    ∧ (PoolsValue.apply_filter PoolsValue.c4State).dexes ≠ [{ id := "dex-1" }] := by
  decide

/-- C6 witness: the general step at the concrete trend triple of the example,
with every hypothesis discharged on concrete values. -/
theorem c6_noise_merge_witness :
    (0 + 2 < c6Trends.length) ∧
    mergeLoopRun c6Trends 0
      = mergeLoopRun
          ((((c6Trends.erase c6Trends[0]).erase c6Trends[1]).erase c6Trends[2]).insertIdx 0
            ⟨c6Trends[0].change + c6Trends[1].change + c6Trends[2].change,
             c6Trends[0].beginning, c6Trends[2].ending⟩)
          (0 - 2) :=
  ⟨by decide,
    c6_noise_merge_absorbs_small_reversal.1 c6Trends 0 (by decide) (by decide) (by decide)
      (by decide) (by decide)⟩

end RatKernelReducible
